import Mathlib

/-
Verification of the run-queue execution coordinator of circleguard
(src/circleguard/gui.py).  The definitions below are a shallow embedding of
MainTab.add_circleguard_run / check_circleguard_queue / run_circleguard /
print_results and TrackerLoader._ratelimit.  External engine calls
(circlecore's load_info / load / run) are modelled by per-run outcome data
(EngineCheck): how many loadable units a check has, whether a call raises,
and which results the comparison iterator yields.
-/

namespace Circleguard

/-- Terminal messages written through write_to_terminal_signal or
MainTab.write, abstracted by which settings message template the source
formats (gui.py lines 775, 783, 805, 817, 826, 829, 848, 860). -/
inductive TermMsg
  | loadingReplays
  | startingComparing
  | finishedComparing
  | noInfoMsg
  | cheaterMsg
  | noCheaterMsg
deriving DecidableEq, Repr

/-- A comparison result produced by the detection engine (circlecore) during
the Comparing phase and put on MainTab.q by run_circleguard (gui.py 788,
822).  `ischeat` is the engine-derived flag read by print_results. -/
structure Result where
  similarity : ℚ
  ischeat : Bool
deriving DecidableEq, Repr

/-- Observable emissions of the coordinator: the Qt signals of MainTab
(gui.py 473-479) plus log.exception (833) and the user alerts of
print_results (851-854). -/
inductive Event
  | label : String → Event            -- update_label_signal
  | runStatus : Nat → String → Event  -- update_run_status_signal (run_id, status)
  | setProgress : Int → Event         -- set_progressbar_signal
  | incProgress : Int → Event         -- increment_progressbar_signal
  | terminal : TermMsg → Event        -- write_to_terminal_signal / write
  | resultEv : Result → Event         -- self.q.put(result)
  | logExc : Event                    -- log.exception (gui.py 833)
  | beep : Event                      -- QApplication.beep (851)
  | alertWindow : Event               -- QApplication.alert (852)
  | addComparison : Result → Event    -- add_comparison_result_signal (854)
deriving DecidableEq, Repr

/-- One primitive step of the executor pipeline: an observable emission, a
cg.load call, a cg.load_info call, or a poll of the run's cancellation
token (run.event.wait(0), gui.py 678 and 720) together with the value the
poll observed. -/
inductive Action
  | ev : Event → Action
  | loadCall : Action
  | loadInfoCall : Action
  | tokenPoll : Bool → Action
deriving DecidableEq, Repr

/-- The two error classes the pipeline distinguishes (gui.py 828, 832):
NoInfoAvailableException versus any other Exception. -/
inductive Err
  | noInfo
  | other
deriving DecidableEq, Repr

/-- Engine-side behaviour of one circlecore Check object, opaque to the
scheduler: how many loadable units all_replays() holds, whether load_info
raises, whether the load of unit k raises (only the first raise can matter
since the pipeline aborts there), the results the comparison iterator
yields, and whether pulling past the last result raises. -/
structure EngineCheck where
  numReplays : Nat
  loadInfoErr : Option Err
  loadErr : Option (Nat × Err)
  results : List Result
  resultsTailErr : Option Err
deriving DecidableEq, Repr

/-- The kind dispatch of run_circleguard (type(run) is MapRun / ScreenRun /
LocalRun / VerifyRun, gui.py 731-755) with the engine behaviour each kind
resolves to.  A screen run carries the outcome of cg.load_info(user)
(gui.py 741) and a list of check lists; a local run carries the outcome of
the extra cg.load(replays[0]) map-id peek (gui.py 796-801). -/
inductive RunSpec
  | mapRun : EngineCheck → RunSpec
  | screenRun : Option Err → List (List EngineCheck) → RunSpec
  | localRun : Option Err → EngineCheck → RunSpec
  | verifyRun : EngineCheck → RunSpec
deriving DecidableEq, Repr

/-- A queued Run (utils.MapRun etc.): its monotonically assigned id, its
kind-specific engine behaviour, and its cancellation token.  The token is a
monotone latch; we model it by the index of the first poll at which it
reads set (`none` = never set).  Poll 0 is the supervisor's dequeue check
(gui.py 678); the executor's polls are numbered from 1. -/
structure Run where
  run_id : Nat
  spec : RunSpec
  cancelAt : Option Nat
deriving DecidableEq, Repr

/-- The value run.event.wait(0) returns at the i-th poll of this run's
token. -/
def Run.tokenAt (r : Run) (i : Nat) : Bool :=
  match r.cancelAt with
  | none => false
  | some c => decide (c ≤ i)

/-- How the try-block of run_circleguard terminates early: SystemExit from
the cancellation check (gui.py 725), or a raised engine error. -/
inductive Exc
  | canceled
  | raised : Err → Exc
deriving DecidableEq, Repr

/-- Result of running a pipeline fragment: the actions it performed, the
next token-poll index, and whether it exited early. -/
structure PRes where
  acts : List Action
  cp : Nat
  out : Option Exc
deriving Repr

/-- The actions _check_event performs when it observes the token set
(gui.py 720-725): the poll itself, update_label("Canceled"),
set_progressbar(-1), then sys.exit(0). -/
def cancelExit : List Action :=
  [Action.tokenPoll true, Action.ev (Event.label "Canceled"),
   Action.ev (Event.setProgress (-1))]

/-- Whether cg.load of the i-th unit raises, read off the first-raise
datum of the check. -/
def loadRaises (le : Option (Nat × Err)) (i : Nat) : Option Err :=
  match le with
  | some ke => if ke.1 = i then some ke.2 else none
  | none => none

/-- The per-unit loading loop (gui.py 777-780 and 807-810):
for replay in loadables: _check_event(event); cg.load(replay);
increment_progressbar(1).  First argument of the recursion is the number
of units left, then the poll counter, then the unit index. -/
def loadLoop (r : Run) (le : Option (Nat × Err)) : Nat → Nat → Nat → PRes
  | 0, cp, _i => ⟨[], cp, none⟩
  | n + 1, cp, i =>
    if r.tokenAt cp then ⟨cancelExit, cp + 1, some Exc.canceled⟩
    else
      match loadRaises le i with
      | some e => ⟨[Action.tokenPoll false, Action.loadCall], cp + 1, some (Exc.raised e)⟩
      | none =>
        let rest := loadLoop r le n (cp + 1) (i + 1)
        ⟨Action.tokenPoll false :: Action.loadCall ::
           Action.ev (Event.incProgress 1) :: rest.acts,
         rest.cp, rest.out⟩

/-- The result-draining loop (gui.py 786-788 and 820-822):
for result in cg.run(check): _check_event(event); self.q.put(result).
The iterator pulls the next result first, then the body polls the token
and enqueues it. -/
def resultLoop (r : Run) (tailErr : Option Err) : List Result → Nat → PRes
  | [], cp =>
    match tailErr with
    | some e => ⟨[], cp, some (Exc.raised e)⟩
    | none => ⟨[], cp, none⟩
  | res :: rest, cp =>
    if r.tokenAt cp then ⟨cancelExit, cp + 1, some Exc.canceled⟩
    else
      let k := resultLoop r tailErr rest (cp + 1)
      ⟨Action.tokenPoll false :: Action.ev (Event.resultEv res) :: k.acts, k.cp, k.out⟩

/-- The transition into the Comparing phase (gui.py 783-785 and 817-819):
the starting-comparing terminal message, update_label("Comparing Replays")
and update_run_status(run_id, "Comparing Replays"). -/
def comparingBlock (rid : Nat) : List Action :=
  [Action.ev (Event.terminal TermMsg.startingComparing),
   Action.ev (Event.label "Comparing Replays"),
   Action.ev (Event.runStatus rid "Comparing Replays")]

/-- Tail of the non-screen branch after the map-id peek (gui.py 805-822):
loading message, per-unit loading loop, set_progressbar(0) (flip the bar
into the indeterminate animation), comparing block, result loop.
`p` is the actions already performed by the branch head. -/
def simpleRest (r : Run) (p : List Action) (ec : EngineCheck) (cp : Nat) : PRes :=
  let p2 := p ++ [Action.ev (Event.terminal TermMsg.loadingReplays)]
  let ld := loadLoop r ec.loadErr ec.numReplays cp 0
  match ld.out with
  | some e => ⟨p2 ++ ld.acts, ld.cp, some e⟩
  | none =>
    let mid := p2 ++ ld.acts ++ (Action.ev (Event.setProgress 0) :: comparingBlock r.run_id)
    let rs := resultLoop r ec.resultsTailErr ec.results ld.cp
    ⟨mid ++ rs.acts, rs.cp, rs.out⟩

/-- The non-screen branch of run_circleguard (gui.py 790-822):
cg.load_info(check); set_progressbar(num_replays); the access replays[0]
at line 796 (an IndexError, hence a generic exception, when the check is
empty); for a LocalRun the unchecked map-id peek cg.load(replays[0]); then
simpleRest. -/
def simpleBody (r : Run) (isLocal : Bool) (load0Err : Option Err) (ec : EngineCheck)
    (cp : Nat) : PRes :=
  match ec.loadInfoErr with
  | some e => ⟨[Action.loadInfoCall], cp, some (Exc.raised e)⟩
  | none =>
    let p1 : List Action :=
      [Action.loadInfoCall, Action.ev (Event.setProgress (ec.numReplays : Int))]
    if ec.numReplays = 0 then ⟨p1, cp, some (Exc.raised Err.other)⟩
    else if isLocal then
      match load0Err with
      | some e => ⟨p1 ++ [Action.loadCall], cp, some (Exc.raised e)⟩
      | none => simpleRest r (p1 ++ [Action.loadCall]) ec cp
    else simpleRest r p1 ec cp

/-- Total unit count of a screen run, summed over every sub-check
(gui.py 758-765). -/
def screenTotal (checks : List (List EngineCheck)) : Nat :=
  (checks.flatten.map EngineCheck.numReplays).sum

/-- One sub-check of the screen branch (gui.py 768-788): cg.load_info;
the loading message (whose format arguments access loadables[0], an
IndexError when empty); the per-unit loading loop; the comparing block
(note: the screen branch emits no set_progressbar(0)); the result loop. -/
def screenCheck (r : Run) (ec : EngineCheck) (cp : Nat) : PRes :=
  match ec.loadInfoErr with
  | some e => ⟨[Action.loadInfoCall], cp, some (Exc.raised e)⟩
  | none =>
    if ec.numReplays = 0 then ⟨[Action.loadInfoCall], cp, some (Exc.raised Err.other)⟩
    else
      let p := [Action.loadInfoCall, Action.ev (Event.terminal TermMsg.loadingReplays)]
      let ld := loadLoop r ec.loadErr ec.numReplays cp 0
      match ld.out with
      | some e => ⟨p ++ ld.acts, ld.cp, some e⟩
      | none =>
        let mid := p ++ ld.acts ++ comparingBlock r.run_id
        let rs := resultLoop r ec.resultsTailErr ec.results ld.cp
        ⟨mid ++ rs.acts, rs.cp, rs.out⟩

/-- The doubly nested sub-check iteration of the screen branch
(gui.py 768-769), flattened: the nesting is purely sequential. -/
def screenChecksLoop (r : Run) : List EngineCheck → Nat → PRes
  | [], cp => ⟨[], cp, none⟩
  | ec :: rest, cp =>
    let c := screenCheck r ec cp
    match c.out with
    | some e => ⟨c.acts, c.cp, some e⟩
    | none =>
      let k := screenChecksLoop r rest c.cp
      ⟨c.acts ++ k.acts, k.cp, k.out⟩

/-- The screen branch of run_circleguard (gui.py 740-748, 757-788):
cg.load_info(user), then the total-count progress reset, then every
sub-check in order. -/
def screenBody (r : Run) (userInfoErr : Option Err) (checks : List (List EngineCheck))
    (cp : Nat) : PRes :=
  match userInfoErr with
  | some e => ⟨[Action.loadInfoCall], cp, some (Exc.raised e)⟩
  | none =>
    let p : List Action :=
      [Action.loadInfoCall, Action.ev (Event.setProgress (screenTotal checks : Int))]
    let k := screenChecksLoop r checks.flatten cp
    ⟨p ++ k.acts, k.cp, k.out⟩

/-- The try-block of run_circleguard after the kind dispatch
(gui.py 731-826 without the final reset, which belongs to the epilogue
cases below). -/
def runBody (r : Run) (cp : Nat) : PRes :=
  match r.spec with
  | RunSpec.mapRun ec => simpleBody r false none ec cp
  | RunSpec.screenRun ue checks => screenBody r ue checks cp
  | RunSpec.localRun l0 ec => simpleBody r true l0 ec cp
  | RunSpec.verifyRun ec => simpleBody r false none ec cp

/-- The two status emissions that open every run (gui.py 701-702). -/
def header (r : Run) : List Action :=
  [Action.ev (Event.label "Loading Replays"),
   Action.ev (Event.runStatus r.run_id "Loading Replays")]

/-- The emissions after the try statement (gui.py 836-837):
update_label("Idle") and update_run_status(run_id, "Finished"). -/
def epilogue (r : Run) : List Action :=
  [Action.ev (Event.label "Idle"), Action.ev (Event.runStatus r.run_id "Finished")]

/-- Normal completion of the try-block (gui.py 824-826). -/
def okTail : List Action :=
  [Action.ev (Event.setProgress (-1)), Action.ev (Event.terminal TermMsg.finishedComparing)]

/-- The NoInfoAvailableException handler (gui.py 828-830). -/
def noInfoTail : List Action :=
  [Action.ev (Event.terminal TermMsg.noInfoMsg), Action.ev (Event.setProgress (-1))]

/-- The generic Exception handler (gui.py 832-834). -/
def excTail : List Action := [Action.ev Event.logExc]

/-- MainTab.run_circleguard (gui.py 700-837) for one run: the opening
Loading statuses, the try-block, then either the normal tail, nothing at
all (SystemExit from a cancellation check escapes both handlers, which
catch NoInfoAvailableException and Exception only, and skips the code
after the try statement), or one of the two handlers; every path except
cancellation then reaches the Idle/Finished epilogue. -/
def run_circleguard (r : Run) : List Action :=
  let b := runBody r 1
  header r ++ b.acts ++
    match b.out with
    | none => okTail ++ epilogue r
    | some Exc.canceled => []
    | some (Exc.raised Err.noInfo) => noInfoTail ++ epilogue r
    | some (Exc.raised Err.other) => excTail ++ epilogue r

/-- How the try-block of run_circleguard terminated for this run. -/
def runOutcome (r : Run) : Option Exc := (runBody r 1).out

/-- The inner supervisor loop _check_circleguard_queue (gui.py 672-687):
dequeue FIFO until Empty; a run whose token is already set at dequeue time
is skipped silently (line 678-679); otherwise run_circleguard is executed
on a thread that is immediately joined, so the next dequeue happens only
after the previous run has fully terminated. -/
def check_circleguard_queue : List Run → List Action
  | [] => []
  | r :: rest =>
    if r.tokenAt 0 then Action.tokenPoll true :: check_circleguard_queue rest
    else (Action.tokenPoll false :: run_circleguard r) ++ check_circleguard_queue rest

/-- MainTab.add_circleguard_run's id assignment (gui.py 645-659): each
submission receives the current value of self.run_id, which is then
incremented, and the run is appended to the FIFO queue cg_q.  `submitAll
specs k` is the queue contents after submitting `specs` in order starting
from counter value `k`, with no cancellations. -/
def submitAll : List RunSpec → Nat → List Run
  | [], _ => []
  | sp :: rest, k => ⟨k, sp, none⟩ :: submitAll rest (k + 1)

/-- Projection of an action trace onto its observable signal emissions. -/
def Action.evOf : Action → Option Event
  | Action.ev e => some e
  | _ => none

/-- The observable signal emissions of an action trace. -/
def eventsOf (l : List Action) : List Event := l.filterMap Action.evOf

/-- The run id announced by a Loading-Replays run-status event, if the
action is one: a run is started (enters Loading) exactly when this status
is emitted for it (gui.py 702). -/
def startedOf : Action → Option Nat
  | Action.ev (Event.runStatus i s) => if s = "Loading Replays" then some i else none
  | _ => none

/-- The run ids in order of entering Loading. -/
def startedIds (l : List Action) : List Nat := l.filterMap startedOf

/-- The successive values taken by the global current-activity label. -/
def labelsOf (l : List Action) : List String :=
  l.filterMap fun a =>
    match a with
    | Action.ev (Event.label s) => some s
    | _ => none

/-- Scanner for the claim that every cg.load call is issued directly after
a cancellation check that observed the token unset: `prev` is the action
preceding the current head. -/
def checkedLoads : Action → List Action → Bool
  | _, [] => true
  | prev, a :: rest =>
    (if a = Action.loadCall then decide (prev = Action.tokenPoll false) else true)
      && checkedLoads a rest

/-- Every load call in the trace is directly preceded by a token poll that
observed the token unset. -/
def allLoadsChecked : List Action → Bool
  | [] => true
  | a :: rest => (if a = Action.loadCall then false else true) && checkedLoads a rest

/-- Once some poll observes the token set, no cg.load call follows. -/
def noLoadAfterSetPoll : List Action → Bool
  | [] => true
  | a :: rest =>
    if a = Action.tokenPoll true then rest.all fun b => decide (b ≠ Action.loadCall)
    else noLoadAfterSetPoll rest

/-- The classification a single drained result receives in
MainTab.print_results (gui.py 842-862): ischeat runs the cheater message,
beep, window alert and the persistent results tab; otherwise a similarity
below the display threshold is only printed; otherwise nothing happens. -/
def resultActions (dispThresh : ℚ) (res : Result) : List Event :=
  if res.ischeat then
    [Event.terminal TermMsg.cheaterMsg, Event.beep, Event.alertWindow,
     Event.addComparison res]
  else if res.similarity < dispThresh then [Event.terminal TermMsg.noCheaterMsg]
  else []

/-- MainTab.print_results (gui.py 839-864): drain every currently pending
result in FIFO order and classify each. -/
def print_results (dispThresh : ℚ) (pending : List Result) : List Event :=
  pending.flatMap (resultActions dispThresh)

/-- Modelled from the spec: the detection engine derives is_cheat from the
comparison (spec section 3, "is_cheat: boolean derived from
similarity < cheat_threshold"); the derivation itself lives in circlecore
(StealDetect, built from run.thresh at gui.py 730), outside this
repository. -/
def mkResult (cheatThresh : ℚ) (sim : ℚ) : Result :=
  ⟨sim, decide (sim < cheatThresh)⟩

/-- TrackerLoader.INTERVAL (gui.py 879): the size, in seconds, of one
increment of the interruptible rate-limit wait. -/
def INTERVAL : ℚ := 1 / 4

/-- The primitive steps of TrackerLoader._ratelimit (gui.py 885-894): the
ratelimit_signal emission at entry, a time.sleep of the given length, and
a check_stopped_signal emission, whose connected handler _check_event
polls the run's token (recorded with the polled value; when it is set the
handler raises SystemExit, aborting the wait). -/
inductive RlAct
  | signal : RlAct
  | sleep : ℚ → RlAct
  | checkStopped : Bool → RlAct
deriving DecidableEq, Repr

/-- The wait loop of TrackerLoader._ratelimit: `for _ in range(rng):
time.sleep(INTERVAL); self.check_stopped_signal.emit()`.  `token i` is the
value the i-th emitted check observes; a set observation aborts the loop
(SystemExit from the connected _check_event). -/
def ratelimitLoop (token : Nat → Bool) : Nat → Nat → List RlAct
  | 0, _ => []
  | n + 1, i =>
    RlAct.sleep INTERVAL :: RlAct.checkStopped (token i) ::
      (if token i then [] else ratelimitLoop token n (i + 1))

/-- The increment count rng of TrackerLoader._ratelimit (gui.py 891):
math.ceil(length / self.INTERVAL). -/
def ratelimitRounds (length : ℚ) : Nat := (Int.ceil (length / INTERVAL)).toNat

/-- TrackerLoader._ratelimit (gui.py 885-894). -/
def ratelimit (token : Nat → Bool) (length : ℚ) : List RlAct :=
  RlAct.signal :: ratelimitLoop token (ratelimitRounds length) 0

/-- Number of sleeps a wait trace performed. -/
def countSleeps (l : List RlAct) : Nat :=
  l.countP fun a =>
    match a with
    | RlAct.sleep _ => true
    | _ => false

/-- Program counter of one live _check_circleguard_queue thread: about to
call cg_q.get_nowait (gui.py 675), or blocked in thread.join while
run_circleguard executes the given run (gui.py 680-684). -/
inductive SupPC
  | atDequeue : SupPC
  | running : Nat → SupPC
deriving DecidableEq, Repr

/-- Shared state of the queue-coordination protocol (gui.py 671-696):
the helper_thread_running flag, the FIFO queue cg_q, the live
_check_circleguard_queue threads, and the ids of runs currently inside
run_circleguard. -/
structure SupConfig where
  flag : Bool
  queue : List Run
  sups : List SupPC
  executing : List Nat
deriving Repr

/-- Interleaving semantics of check_circleguard_queue (gui.py 671-696).
`spawn` is a GUI-thread call of check_circleguard_queue (from the 250 ms
timer or from add_circleguard_run) reading helper_thread_running as false
and starting a _check_circleguard_queue thread; the flag is only written
later, by that thread itself, at line 681.  `skip` discards an
already-canceled dequeued run (678-679).  `start` dequeues a live run,
sets the flag and enters run_circleguard (675-682).  `finish` is
run_circleguard terminating, unblocking the join (684).  `exits` is
get_nowait raising Empty: the thread clears the flag and returns
(685-687). -/
inductive SupStep : SupConfig → SupConfig → Prop
  | spawn (c : SupConfig) (h : c.flag = false) :
      SupStep c ⟨c.flag, c.queue, SupPC.atDequeue :: c.sups, c.executing⟩
  | skip (flag : Bool) (r : Run) (rest : List Run) (l₁ l₂ : List SupPC)
      (ex : List Nat) (h : r.tokenAt 0 = true) :
      SupStep ⟨flag, r :: rest, l₁ ++ SupPC.atDequeue :: l₂, ex⟩
              ⟨flag, rest, l₁ ++ SupPC.atDequeue :: l₂, ex⟩
  | start (flag : Bool) (r : Run) (rest : List Run) (l₁ l₂ : List SupPC)
      (ex : List Nat) (h : r.tokenAt 0 = false) :
      SupStep ⟨flag, r :: rest, l₁ ++ SupPC.atDequeue :: l₂, ex⟩
              ⟨true, rest, l₁ ++ SupPC.running r.run_id :: l₂, r.run_id :: ex⟩
  | finish (flag : Bool) (queue : List Run) (rid : Nat) (l₁ l₂ : List SupPC)
      (ex : List Nat) :
      SupStep ⟨flag, queue, l₁ ++ SupPC.running rid :: l₂, ex⟩
              ⟨flag, queue, l₁ ++ SupPC.atDequeue :: l₂, ex.erase rid⟩
  | exits (flag : Bool) (l₁ l₂ : List SupPC) (ex : List Nat) :
      SupStep ⟨flag, [], l₁ ++ SupPC.atDequeue :: l₂, ex⟩
              ⟨false, [], l₁ ++ l₂, ex⟩

/-- Reachability in the queue-coordination protocol. -/
def SupReachable : SupConfig → SupConfig → Prop := Relation.ReflTransGen SupStep

/-- The actions the try-block of run_circleguard can perform outside the
cancellation exit, for the run with the given id: unset token polls, engine
calls, progress increments, nonnegative progress resets, the two loading /
comparing terminal messages, the Comparing label and run-status for this
very id, and result enqueues.  In particular no Canceled or Idle label, no
Loading-Replays or Finished status, no progress reset to -1, and no set
token poll. -/
def Action.bodyOk (rid : Nat) : Action → Bool
  | Action.tokenPoll b => !b
  | Action.loadCall => true
  | Action.loadInfoCall => true
  | Action.ev (Event.incProgress _) => true
  | Action.ev (Event.setProgress n) => decide (0 ≤ n)
  | Action.ev (Event.terminal m) =>
      decide (m = TermMsg.loadingReplays) || decide (m = TermMsg.startingComparing)
  | Action.ev (Event.label s) => decide (s = "Comparing Replays")
  | Action.ev (Event.runStatus i s) => decide (i = rid) && decide (s = "Comparing Replays")
  | Action.ev (Event.resultEv _) => true
  | _ => false

/-- Every action of the list is a benign body action for the given run. -/
def BodyOk (rid : Nat) (l : List Action) : Prop :=
  ∀ a ∈ l, Action.bodyOk rid a = true

/-- Structure of a pipeline fragment's trace relative to its outcome: if it
exited through the cancellation check its trace is benign actions followed
by exactly the cancellation exit; otherwise the whole trace is benign. -/
def Shape (rid : Nat) (acts : List Action) (out : Option Exc) : Prop :=
  match out with
  | some Exc.canceled => ∃ p, acts = p ++ cancelExit ∧ BodyOk rid p
  | _ => BodyOk rid acts

/-- Whole-trace form of checkedLoads that is closed under appending blocks
whose scan passes from any starting predecessor. -/
def ChainAll (l : List Action) : Prop := ∀ q, checkedLoads q l = true

/-- A one-unit engine check with no errors and no results, used as concrete
input below. -/
def wEc1 : EngineCheck := ⟨1, none, none, [], none⟩

/-- A two-unit engine check with no errors and no results, used as concrete
input below. -/
def wEc2 : EngineCheck := ⟨2, none, none, [], none⟩

/-- A local run (map-id peek succeeds) that is never canceled. -/
def wRunLocal : Run := ⟨0, RunSpec.localRun none wEc1, none⟩

/-- A map run that is never canceled. -/
def wRunMap : Run := ⟨0, RunSpec.mapRun wEc1, none⟩

/-- A verify run whose token becomes set at poll 2, i.e. after the
supervisor's dequeue check and the first per-unit check: it is canceled in
the middle of Loading. -/
def wRunCancel : Run := ⟨0, RunSpec.verifyRun wEc2, some 2⟩

/-- A map run whose token becomes set at poll 1: it is canceled right
after being dequeued, at the first executor checkpoint. -/
def wRunCancel2 : Run := ⟨3, RunSpec.mapRun wEc1, some 1⟩

/-- A screen run with a single sub-check, never canceled. -/
def wRunScreen : Run := ⟨0, RunSpec.screenRun none [[wEc1]], none⟩

/-- A map run whose load_info raises NoInfoAvailableException. -/
def wRunNoInfo : Run := ⟨0, RunSpec.mapRun ⟨1, some Err.noInfo, none, [], none⟩, none⟩

/-- A run whose token is already set at poll 0, i.e. before the supervisor
dequeues it. -/
def wRunPre : Run := ⟨0, RunSpec.verifyRun wEc1, some 0⟩

/-- A live run with a fresh id, queued behind others. -/
def wRunNext : Run := ⟨1, RunSpec.verifyRun wEc1, none⟩

/-- Initial configuration for the supervisor race: the latch is clear, two
live runs are queued, no supervisor thread is live, nothing executes. -/
def raceInit : SupConfig := ⟨false, [wRunMap, wRunNext], [], []⟩

theorem BodyOk.appendOk {rid : Nat} {l₁ l₂ : List Action}
    (h₁ : BodyOk rid l₁) (h₂ : BodyOk rid l₂) : BodyOk rid (l₁ ++ l₂) := by
  intro a ha
  rcases List.mem_append.mp ha with h | h
  · exact h₁ a h
  · exact h₂ a h

theorem BodyOk.nil {rid : Nat} : BodyOk rid [] := by
  intro a ha
  simp at ha

theorem Shape.prepend {rid : Nat} {l acts : List Action} {out : Option Exc}
    (h : BodyOk rid l) (hs : Shape rid acts out) : Shape rid (l ++ acts) out := by
  match out with
  | none => exact h.appendOk hs
  | some Exc.canceled =>
    obtain ⟨p, hp, hb⟩ := hs
    exact ⟨l ++ p, by rw [hp, List.append_assoc], h.appendOk hb⟩
  | some (Exc.raised e) => exact h.appendOk hs

theorem shape_loadLoop (r : Run) (le : Option (Nat × Err)) :
    ∀ n cp i, Shape r.run_id (loadLoop r le n cp i).acts (loadLoop r le n cp i).out := by
  intro n
  induction n with
  | zero =>
    intro cp i
    simp [loadLoop, Shape]
    exact BodyOk.nil
  | succ n ih =>
    intro cp i
    by_cases h : r.tokenAt cp
    · simp only [loadLoop, h, if_true]
      exact ⟨[], by simp, BodyOk.nil⟩
    · cases hle : loadRaises le i with
      | some e =>
        simp only [loadLoop, h, if_false, hle, Shape]
        intro a ha
        rcases List.mem_cons.mp ha with rfl | ha
        · rfl
        · rcases List.mem_singleton.mp ha with rfl
          rfl
      | none =>
        simp only [loadLoop, h, if_false, hle, Bool.false_eq_true]
        have hcons : BodyOk r.run_id
            [Action.tokenPoll false, Action.loadCall, Action.ev (Event.incProgress 1)] := by
          intro a ha
          rcases List.mem_cons.mp ha with rfl | ha
          · rfl
          rcases List.mem_cons.mp ha with rfl | ha
          · rfl
          rcases List.mem_singleton.mp ha with rfl
          rfl
        have := Shape.prepend hcons (ih (cp + 1) (i + 1))
        simpa using this

theorem shape_resultLoop (r : Run) (te : Option Err) :
    ∀ rs cp, Shape r.run_id (resultLoop r te rs cp).acts (resultLoop r te rs cp).out := by
  intro rs
  induction rs with
  | nil =>
    intro cp
    cases te <;> simp [resultLoop, Shape] <;> exact BodyOk.nil
  | cons res rest ih =>
    intro cp
    by_cases h : r.tokenAt cp
    · simp only [resultLoop, h, if_true]
      exact ⟨[], by simp, BodyOk.nil⟩
    · simp only [resultLoop, h, if_false, Bool.false_eq_true]
      have hcons : BodyOk r.run_id
          [Action.tokenPoll false, Action.ev (Event.resultEv res)] := by
        intro a ha
        rcases List.mem_cons.mp ha with rfl | ha
        · rfl
        rcases List.mem_singleton.mp ha with rfl
        rfl
      have := Shape.prepend hcons (ih (cp + 1))
      simpa using this

theorem bodyOk_setProgress_ofNat (rid n : Nat) :
    Action.bodyOk rid (Action.ev (Event.setProgress (n : Int))) = true := by
  simp [Action.bodyOk]

theorem bodyOk_comparingBlock (rid : Nat) : BodyOk rid (comparingBlock rid) := by
  intro a ha
  rcases List.mem_cons.mp ha with rfl | ha
  · rfl
  rcases List.mem_cons.mp ha with rfl | ha
  · simp [Action.bodyOk]
  rcases List.mem_singleton.mp ha with rfl
  simp [Action.bodyOk]

theorem shape_simpleRest (r : Run) (p : List Action) (ec : EngineCheck) (cp : Nat)
    (hp : BodyOk r.run_id p) :
    Shape r.run_id (simpleRest r p ec cp).acts (simpleRest r p ec cp).out := by
  have hterm : BodyOk r.run_id [Action.ev (Event.terminal TermMsg.loadingReplays)] := by
    intro a ha
    rcases List.mem_singleton.mp ha with rfl
    rfl
  have hld := shape_loadLoop r ec.loadErr ec.numReplays cp 0
  cases hout : (loadLoop r ec.loadErr ec.numReplays cp 0).out with
  | some e =>
    rw [hout] at hld
    simp only [simpleRest, hout]
    exact Shape.prepend (hp.appendOk hterm) hld
  | none =>
    rw [hout] at hld
    simp only [simpleRest, hout]
    have hmid : BodyOk r.run_id
        (Action.ev (Event.setProgress 0) :: comparingBlock r.run_id) := by
      intro a ha
      rcases List.mem_cons.mp ha with rfl | ha
      · rfl
      · exact bodyOk_comparingBlock r.run_id a ha
    have hrs := shape_resultLoop r ec.resultsTailErr ec.results
      (loadLoop r ec.loadErr ec.numReplays cp 0).cp
    have := Shape.prepend (((hp.appendOk hterm).appendOk hld).appendOk hmid) hrs
    simpa [List.append_assoc] using this

theorem shape_simpleBody (r : Run) (isLocal : Bool) (l0 : Option Err) (ec : EngineCheck)
    (cp : Nat) :
    Shape r.run_id (simpleBody r isLocal l0 ec cp).acts (simpleBody r isLocal l0 ec cp).out := by
  have hinfo : BodyOk r.run_id [Action.loadInfoCall] := by
    intro a ha
    rcases List.mem_singleton.mp ha with rfl
    rfl
  have hp1 : BodyOk r.run_id
      [Action.loadInfoCall, Action.ev (Event.setProgress (ec.numReplays : Int))] := by
    intro a ha
    rcases List.mem_cons.mp ha with rfl | ha
    · rfl
    rcases List.mem_singleton.mp ha with rfl
    exact bodyOk_setProgress_ofNat r.run_id ec.numReplays
  have hload : BodyOk r.run_id [Action.loadCall] := by
    intro a ha
    rcases List.mem_singleton.mp ha with rfl
    rfl
  cases hie : ec.loadInfoErr with
  | some e => simp only [simpleBody, hie, Shape]; exact hinfo
  | none =>
    by_cases hz : ec.numReplays = 0
    · simp only [simpleBody, hie, hz, if_true, Shape]
      rw [hz] at hp1
      exact hp1
    · cases isLocal with
      | false =>
        simp only [simpleBody, hie, hz, if_false, Bool.false_eq_true]
        exact shape_simpleRest r _ ec cp hp1
      | true =>
        cases hl0 : l0 with
        | some e =>
          simp only [simpleBody, hie, hz, if_false, hl0, Shape]
          exact hp1.appendOk hload
        | none =>
          simp only [simpleBody, hie, hz, if_false, hl0]
          exact shape_simpleRest r _ ec cp (hp1.appendOk hload)

theorem shape_screenCheck (r : Run) (ec : EngineCheck) (cp : Nat) :
    Shape r.run_id (screenCheck r ec cp).acts (screenCheck r ec cp).out := by
  have hinfo : BodyOk r.run_id [Action.loadInfoCall] := by
    intro a ha
    rcases List.mem_singleton.mp ha with rfl
    rfl
  have hpre : BodyOk r.run_id
      [Action.loadInfoCall, Action.ev (Event.terminal TermMsg.loadingReplays)] := by
    intro a ha
    rcases List.mem_cons.mp ha with rfl | ha
    · rfl
    rcases List.mem_singleton.mp ha with rfl
    rfl
  cases hie : ec.loadInfoErr with
  | some e => simp only [screenCheck, hie, Shape]; exact hinfo
  | none =>
    by_cases hz : ec.numReplays = 0
    · simp only [screenCheck, hie, hz, if_true, Shape]
      exact hinfo
    · simp only [screenCheck, hie, hz, if_false]
      have hld := shape_loadLoop r ec.loadErr ec.numReplays cp 0
      cases hout : (loadLoop r ec.loadErr ec.numReplays cp 0).out with
      | some e =>
        rw [hout] at hld
        simp only [hout]
        exact Shape.prepend hpre hld
      | none =>
        rw [hout] at hld
        simp only [hout]
        have hrs := shape_resultLoop r ec.resultsTailErr ec.results
          (loadLoop r ec.loadErr ec.numReplays cp 0).cp
        have := Shape.prepend ((hpre.appendOk hld).appendOk (bodyOk_comparingBlock r.run_id)) hrs
        simpa [List.append_assoc] using this

theorem shape_screenChecksLoop (r : Run) :
    ∀ ecs cp, Shape r.run_id (screenChecksLoop r ecs cp).acts (screenChecksLoop r ecs cp).out := by
  intro ecs
  induction ecs with
  | nil =>
    intro cp
    simp [screenChecksLoop, Shape]
    exact BodyOk.nil
  | cons ec rest ih =>
    intro cp
    have hc := shape_screenCheck r ec cp
    cases hout : (screenCheck r ec cp).out with
    | some e =>
      rw [hout] at hc
      simp only [screenChecksLoop, hout]
      exact hc
    | none =>
      rw [hout] at hc
      simp only [screenChecksLoop, hout]
      exact Shape.prepend hc (ih (screenCheck r ec cp).cp)

theorem shape_screenBody (r : Run) (ue : Option Err) (checks : List (List EngineCheck))
    (cp : Nat) :
    Shape r.run_id (screenBody r ue checks cp).acts (screenBody r ue checks cp).out := by
  have hinfo : BodyOk r.run_id [Action.loadInfoCall] := by
    intro a ha
    rcases List.mem_singleton.mp ha with rfl
    rfl
  cases hue : ue with
  | some e => simp only [screenBody, hue, Shape]; exact hinfo
  | none =>
    simp only [screenBody, hue]
    have hpre : BodyOk r.run_id
        [Action.loadInfoCall, Action.ev (Event.setProgress (screenTotal checks : Int))] := by
      intro a ha
      rcases List.mem_cons.mp ha with rfl | ha
      · rfl
      rcases List.mem_singleton.mp ha with rfl
      exact bodyOk_setProgress_ofNat r.run_id (screenTotal checks)
    exact Shape.prepend hpre (shape_screenChecksLoop r checks.flatten cp)

theorem shape_runBody (r : Run) (cp : Nat) :
    Shape r.run_id (runBody r cp).acts (runBody r cp).out := by
  cases hs : r.spec with
  | mapRun ec => simp only [runBody, hs]; exact shape_simpleBody r false none ec cp
  | screenRun ue checks => simp only [runBody, hs]; exact shape_screenBody r ue checks cp
  | localRun l0 ec => simp only [runBody, hs]; exact shape_simpleBody r true l0 ec cp
  | verifyRun ec => simp only [runBody, hs]; exact shape_simpleBody r false none ec cp

theorem run_circleguard_ok {r : Run} (h : runOutcome r = none) :
    run_circleguard r = header r ++ (runBody r 1).acts ++ (okTail ++ epilogue r) := by
  unfold runOutcome at h
  simp only [run_circleguard, h]

theorem run_circleguard_canceled {r : Run} (h : runOutcome r = some Exc.canceled) :
    ∃ p, run_circleguard r = (header r ++ p) ++ cancelExit ∧ BodyOk r.run_id p := by
  have hs := shape_runBody r 1
  unfold runOutcome at h
  rw [h] at hs
  obtain ⟨p, hp, hb⟩ := hs
  refine ⟨p, ?_, hb⟩
  simp only [run_circleguard, h, hp, List.append_assoc, List.append_nil]

theorem run_circleguard_noInfo {r : Run} (h : runOutcome r = some (Exc.raised Err.noInfo)) :
    run_circleguard r = header r ++ (runBody r 1).acts ++ (noInfoTail ++ epilogue r) := by
  unfold runOutcome at h
  simp only [run_circleguard, h]

theorem run_circleguard_other {r : Run} (h : runOutcome r = some (Exc.raised Err.other)) :
    run_circleguard r = header r ++ (runBody r 1).acts ++ (excTail ++ epilogue r) := by
  unfold runOutcome at h
  simp only [run_circleguard, h]

theorem mem_run_circleguard {r : Run} {a : Action} (h : a ∈ run_circleguard r) :
    a ∈ header r ∨ Action.bodyOk r.run_id a = true ∨ a ∈ cancelExit ∨
      a ∈ okTail ∨ a ∈ noInfoTail ∨ a ∈ excTail ∨ a ∈ epilogue r := by
  have hs := shape_runBody r 1
  have hbody : ∀ b ∈ (runBody r 1).acts,
      Action.bodyOk r.run_id b = true ∨ b ∈ cancelExit := by
    intro b hb
    cases hout : (runBody r 1).out with
    | none =>
      rw [hout] at hs
      exact Or.inl (hs b hb)
    | some exc =>
      cases exc with
      | canceled =>
        rw [hout] at hs
        obtain ⟨p, hp, hpok⟩ := hs
        rw [hp] at hb
        rcases List.mem_append.mp hb with hb | hb
        · exact Or.inl (hpok b hb)
        · exact Or.inr hb
      | raised e =>
        rw [hout] at hs
        exact Or.inl (hs b hb)
  simp only [run_circleguard] at h
  rcases List.mem_append.mp h with h1 | h1
  · rcases List.mem_append.mp h1 with h2 | h2
    · exact Or.inl h2
    · rcases hbody a h2 with h3 | h3
      · exact Or.inr (Or.inl h3)
      · exact Or.inr (Or.inr (Or.inl h3))
  · cases hout : (runBody r 1).out with
    | none =>
      rw [hout] at h1
      rcases List.mem_append.mp h1 with h2 | h2
      · exact Or.inr (Or.inr (Or.inr (Or.inl h2)))
      · exact Or.inr (Or.inr (Or.inr (Or.inr (Or.inr (Or.inr h2)))))
    | some exc =>
      cases exc with
      | canceled =>
        rw [hout] at h1
        simp at h1
      | raised e =>
        cases e with
        | noInfo =>
          rw [hout] at h1
          rcases List.mem_append.mp h1 with h2 | h2
          · exact Or.inr (Or.inr (Or.inr (Or.inr (Or.inl h2))))
          · exact Or.inr (Or.inr (Or.inr (Or.inr (Or.inr (Or.inr h2)))))
        | other =>
          rw [hout] at h1
          rcases List.mem_append.mp h1 with h2 | h2
          · exact Or.inr (Or.inr (Or.inr (Or.inr (Or.inr (Or.inl h2)))))
          · exact Or.inr (Or.inr (Or.inr (Or.inr (Or.inr (Or.inr h2)))))

theorem mem_eventsOf {e : Event} {l : List Action} :
    e ∈ eventsOf l ↔ Action.ev e ∈ l := by
  unfold eventsOf
  rw [List.mem_filterMap]
  constructor
  · rintro ⟨a, ha, hae⟩
    cases a with
    | ev e2 =>
      simp only [Action.evOf, Option.some.injEq] at hae
      rw [← hae]
      exact ha
    | loadCall => simp [Action.evOf] at hae
    | loadInfoCall => simp [Action.evOf] at hae
    | tokenPoll b => simp [Action.evOf] at hae
  · intro ha
    exact ⟨Action.ev e, ha, rfl⟩

theorem eventsOf_append (l₁ l₂ : List Action) :
    eventsOf (l₁ ++ l₂) = eventsOf l₁ ++ eventsOf l₂ := by
  unfold eventsOf
  exact List.filterMap_append l₁ l₂ Action.evOf

theorem startedOf_of_bodyOk {rid : Nat} {a : Action} (h : Action.bodyOk rid a = true) :
    startedOf a = none := by
  cases a with
  | ev e =>
    cases e with
    | label s => rfl
    | runStatus i s =>
      simp only [Action.bodyOk, Bool.and_eq_true, decide_eq_true_eq] at h
      simp only [startedOf, h.2]
      rw [if_neg (by decide)]
    | setProgress n => rfl
    | incProgress n => rfl
    | terminal m => rfl
    | resultEv res => rfl
    | logExc => rfl
    | beep => rfl
    | alertWindow => rfl
    | addComparison res => rfl
  | loadCall => rfl
  | loadInfoCall => rfl
  | tokenPoll b => rfl

theorem startedIds_append (l₁ l₂ : List Action) :
    startedIds (l₁ ++ l₂) = startedIds l₁ ++ startedIds l₂ :=
  List.filterMap_append l₁ l₂ startedOf

theorem startedIds_of_bodyOk {rid : Nat} {l : List Action} (h : BodyOk rid l) :
    startedIds l = [] := by
  unfold startedIds
  rw [List.filterMap_eq_nil_iff]
  intro a ha
  exact startedOf_of_bodyOk (h a ha)

theorem startedIds_run (r : Run) : startedIds (run_circleguard r) = [r.run_id] := by
  have hheader : startedIds (header r) = [r.run_id] := rfl
  have hbody : startedIds (runBody r 1).acts = [] := by
    have hs := shape_runBody r 1
    cases hout : (runBody r 1).out with
    | none =>
      rw [hout] at hs
      exact startedIds_of_bodyOk hs
    | some exc =>
      cases exc with
      | canceled =>
        rw [hout] at hs
        obtain ⟨p, hp, hb⟩ := hs
        rw [hp, startedIds_append, startedIds_of_bodyOk hb]
        rfl
      | raised e =>
        rw [hout] at hs
        exact startedIds_of_bodyOk hs
  cases hout : runOutcome r with
  | none =>
    rw [run_circleguard_ok hout, startedIds_append, startedIds_append, hheader, hbody]
    rfl
  | some exc =>
    cases exc with
    | canceled =>
      obtain ⟨p, heq, hb⟩ := run_circleguard_canceled hout
      rw [heq, startedIds_append, startedIds_append, hheader, startedIds_of_bodyOk hb]
      rfl
    | raised e =>
      cases e with
      | noInfo =>
        rw [run_circleguard_noInfo hout, startedIds_append, startedIds_append, hheader, hbody]
        rfl
      | other =>
        rw [run_circleguard_other hout, startedIds_append, startedIds_append, hheader, hbody]
        rfl

theorem runStatus_id {r : Run} {i : Nat} {s : String}
    (h : Action.ev (Event.runStatus i s) ∈ run_circleguard r) : i = r.run_id := by
  rcases mem_run_circleguard h with h | h | h | h | h | h | h
  · simp only [header, List.mem_cons, List.not_mem_nil, or_false] at h
    rcases h with h | h
    · simp at h
    · simp at h
      exact h.1
  · simp only [Action.bodyOk, Bool.and_eq_true, decide_eq_true_eq] at h
    exact h.1
  · simp [cancelExit] at h
  · simp [okTail] at h
  · simp [noInfoTail] at h
  · simp [excTail] at h
  · simp only [epilogue, List.mem_cons, List.not_mem_nil, or_false] at h
    rcases h with h | h
    · simp at h
    · simp at h
      exact h.1

theorem check_queue_append (q₁ q₂ : List Run) :
    check_circleguard_queue (q₁ ++ q₂) =
      check_circleguard_queue q₁ ++ check_circleguard_queue q₂ := by
  induction q₁ with
  | nil => rfl
  | cons r rest ih =>
    by_cases h : r.tokenAt 0
    · simp [check_circleguard_queue, h, ih]
    · simp [check_circleguard_queue, h, ih]

theorem checkedLoads_of_no_load {l : List Action} (h : Action.loadCall ∉ l) :
    ∀ q, checkedLoads q l = true := by
  induction l with
  | nil => intro q; rfl
  | cons a rest ih =>
    intro q
    have ha : a ≠ Action.loadCall := fun he => h (he ▸ List.mem_cons_self a rest)
    have hrest : Action.loadCall ∉ rest := fun hm => h (List.mem_cons_of_mem a hm)
    simp only [checkedLoads, if_neg ha, Bool.true_and]
    exact ih hrest a

theorem checkedLoads_append_of {l₂ : List Action} (h₂ : ∀ q, checkedLoads q l₂ = true) :
    ∀ l₁ q, checkedLoads q l₁ = true → checkedLoads q (l₁ ++ l₂) = true := by
  intro l₁
  induction l₁ with
  | nil => intro q _; exact h₂ q
  | cons a rest ih =>
    intro q h₁
    simp only [checkedLoads, Bool.and_eq_true] at h₁
    simp only [List.cons_append, checkedLoads, Bool.and_eq_true]
    exact ⟨h₁.1, ih a h₁.2⟩

theorem ChainAll.append {l₁ l₂ : List Action} (h₁ : ChainAll l₁) (h₂ : ChainAll l₂) :
    ChainAll (l₁ ++ l₂) := fun q => checkedLoads_append_of h₂ l₁ q (h₁ q)

theorem ChainAll.of_no_load {l : List Action} (h : Action.loadCall ∉ l) : ChainAll l :=
  checkedLoads_of_no_load h

theorem chainAll_loadLoop (r : Run) (le : Option (Nat × Err)) :
    ∀ n cp i, ChainAll (loadLoop r le n cp i).acts := by
  intro n
  induction n with
  | zero => intro cp i q; rfl
  | succ n ih =>
    intro cp i q
    by_cases h : r.tokenAt cp
    · simp only [loadLoop, h, if_true]
      exact checkedLoads_of_no_load (by decide) q
    · cases hle : loadRaises le i with
      | some e =>
        simp only [loadLoop, h, if_false, hle, Bool.false_eq_true]
        simp [checkedLoads]
      | none =>
        simp only [loadLoop, h, if_false, hle, Bool.false_eq_true]
        simp only [checkedLoads]
        simp only [show (Action.tokenPoll false = Action.loadCall) = False by simp,
          show (Action.ev (Event.incProgress 1) = Action.loadCall) = False by simp]
        simp
        exact ih (cp + 1) (i + 1) (Action.ev (Event.incProgress 1))

theorem no_load_resultLoop (r : Run) (te : Option Err) :
    ∀ rs cp, Action.loadCall ∉ (resultLoop r te rs cp).acts := by
  intro rs
  induction rs with
  | nil =>
    intro cp
    cases te <;> simp [resultLoop]
  | cons res rest ih =>
    intro cp
    by_cases h : r.tokenAt cp
    · simp [resultLoop, h, cancelExit]
    · simp only [resultLoop, h, if_false, Bool.false_eq_true]
      intro hm
      rcases List.mem_cons.mp hm with hm | hm
      · cases hm
      rcases List.mem_cons.mp hm with hm | hm
      · cases hm
      · exact ih (cp + 1) hm

theorem chainAll_simpleRest (r : Run) (p : List Action) (ec : EngineCheck) (cp : Nat)
    (hp : ChainAll p) : ChainAll (simpleRest r p ec cp).acts := by
  have hterm : ChainAll [Action.ev (Event.terminal TermMsg.loadingReplays)] :=
    ChainAll.of_no_load (by decide)
  have hld := chainAll_loadLoop r ec.loadErr ec.numReplays cp 0
  cases hout : (loadLoop r ec.loadErr ec.numReplays cp 0).out with
  | some e =>
    simp only [simpleRest, hout]
    exact (hp.append hterm).append hld
  | none =>
    simp only [simpleRest, hout]
    have hblock : ChainAll (Action.ev (Event.setProgress 0) :: comparingBlock r.run_id) :=
      ChainAll.of_no_load (by simp [comparingBlock])
    have hrs : ChainAll (resultLoop r ec.resultsTailErr ec.results
        (loadLoop r ec.loadErr ec.numReplays cp 0).cp).acts :=
      ChainAll.of_no_load (no_load_resultLoop r ec.resultsTailErr ec.results _)
    have := ((((hp.append hterm).append hld).append hblock).append hrs)
    intro q
    have h2 := this q
    simp only [List.append_assoc] at h2 ⊢
    exact h2

theorem chainAll_simpleBody_nonlocal (r : Run) (ec : EngineCheck) (cp : Nat) :
    ChainAll (simpleBody r false none ec cp).acts := by
  cases hie : ec.loadInfoErr with
  | some e =>
    simp only [simpleBody, hie]
    exact ChainAll.of_no_load (by decide)
  | none =>
    by_cases hz : ec.numReplays = 0
    · simp only [simpleBody, hie, hz, if_true]
      exact ChainAll.of_no_load (by simp)
    · simp only [simpleBody, hie, hz, if_false, Bool.false_eq_true]
      exact chainAll_simpleRest r _ ec cp (ChainAll.of_no_load (by simp))

theorem chainAll_screenCheck (r : Run) (ec : EngineCheck) (cp : Nat) :
    ChainAll (screenCheck r ec cp).acts := by
  cases hie : ec.loadInfoErr with
  | some e =>
    simp only [screenCheck, hie]
    exact ChainAll.of_no_load (by decide)
  | none =>
    by_cases hz : ec.numReplays = 0
    · simp only [screenCheck, hie, hz, if_true]
      exact ChainAll.of_no_load (by decide)
    · simp only [screenCheck, hie, hz, if_false, Bool.false_eq_true]
      have hpre : ChainAll
          [Action.loadInfoCall, Action.ev (Event.terminal TermMsg.loadingReplays)] :=
        ChainAll.of_no_load (by decide)
      have hld := chainAll_loadLoop r ec.loadErr ec.numReplays cp 0
      cases hout : (loadLoop r ec.loadErr ec.numReplays cp 0).out with
      | some e =>
        simp only [hout]
        exact hpre.append hld
      | none =>
        simp only [hout]
        have hblock : ChainAll (comparingBlock r.run_id) :=
          ChainAll.of_no_load (by simp [comparingBlock])
        have hrs : ChainAll (resultLoop r ec.resultsTailErr ec.results
            (loadLoop r ec.loadErr ec.numReplays cp 0).cp).acts :=
          ChainAll.of_no_load (no_load_resultLoop r ec.resultsTailErr ec.results _)
        have := (((hpre.append hld).append hblock).append hrs)
        intro q
        have h2 := this q
        simp only [List.append_assoc] at h2 ⊢
        exact h2

theorem chainAll_screenChecksLoop (r : Run) :
    ∀ ecs cp, ChainAll (screenChecksLoop r ecs cp).acts := by
  intro ecs
  induction ecs with
  | nil => intro cp q; rfl
  | cons ec rest ih =>
    intro cp
    cases hout : (screenCheck r ec cp).out with
    | some e =>
      simp only [screenChecksLoop, hout]
      exact chainAll_screenCheck r ec cp
    | none =>
      simp only [screenChecksLoop, hout]
      exact (chainAll_screenCheck r ec cp).append (ih (screenCheck r ec cp).cp)

theorem chainAll_screenBody (r : Run) (ue : Option Err) (checks : List (List EngineCheck))
    (cp : Nat) : ChainAll (screenBody r ue checks cp).acts := by
  cases hue : ue with
  | some e =>
    simp only [screenBody, hue]
    exact ChainAll.of_no_load (by decide)
  | none =>
    simp only [screenBody, hue]
    exact (ChainAll.of_no_load (by simp)).append (chainAll_screenChecksLoop r checks.flatten cp)

/-- Case split of a run_circleguard trace membership into the fixed
segments, keeping the try-block actions abstract. -/
theorem mem_run_segments {r : Run} {a : Action} (h : a ∈ run_circleguard r) :
    a ∈ header r ∨ a ∈ (runBody r 1).acts ∨ a ∈ okTail ∨ a ∈ noInfoTail ∨
      a ∈ excTail ∨ a ∈ epilogue r := by
  simp only [run_circleguard] at h
  rcases List.mem_append.mp h with h1 | h1
  · rcases List.mem_append.mp h1 with h2 | h2
    · exact Or.inl h2
    · exact Or.inr (Or.inl h2)
  · cases hout : (runBody r 1).out with
    | none =>
      rw [hout] at h1
      rcases List.mem_append.mp h1 with h2 | h2
      · exact Or.inr (Or.inr (Or.inl h2))
      · exact Or.inr (Or.inr (Or.inr (Or.inr (Or.inr h2))))
    | some exc =>
      cases exc with
      | canceled =>
        rw [hout] at h1
        simp at h1
      | raised e =>
        cases e with
        | noInfo =>
          rw [hout] at h1
          rcases List.mem_append.mp h1 with h2 | h2
          · exact Or.inr (Or.inr (Or.inr (Or.inl h2)))
          · exact Or.inr (Or.inr (Or.inr (Or.inr (Or.inr h2))))
        | other =>
          rw [hout] at h1
          rcases List.mem_append.mp h1 with h2 | h2
          · exact Or.inr (Or.inr (Or.inr (Or.inr (Or.inl h2))))
          · exact Or.inr (Or.inr (Or.inr (Or.inr (Or.inr h2))))

theorem chainAll_run_of_body {r : Run} (hb : ChainAll (runBody r 1).acts) :
    ChainAll (run_circleguard r) := by
  have hheader : ChainAll (header r) := ChainAll.of_no_load (by simp [header])
  have htail : ChainAll (match (runBody r 1).out with
      | none => okTail ++ epilogue r
      | some Exc.canceled => ([] : List Action)
      | some (Exc.raised Err.noInfo) => noInfoTail ++ epilogue r
      | some (Exc.raised Err.other) => excTail ++ epilogue r) := by
    cases hout : (runBody r 1).out with
    | none => exact ChainAll.of_no_load (by simp [okTail, epilogue])
    | some exc =>
      cases exc with
      | canceled => intro q; rfl
      | raised e =>
        cases e with
        | noInfo => exact ChainAll.of_no_load (by simp [noInfoTail, epilogue])
        | other => exact ChainAll.of_no_load (by simp [excTail, epilogue])
  have := (hheader.append hb).append htail
  intro q
  have h2 := this q
  simp only [run_circleguard]
  exact h2

theorem allLoadsChecked_run_of_chainAll {r : Run} (h : ChainAll (run_circleguard r)) :
    allLoadsChecked (run_circleguard r) = true := by
  have hrw : run_circleguard r = Action.ev (Event.label "Loading Replays") ::
      (Action.ev (Event.runStatus r.run_id "Loading Replays") ::
        ((runBody r 1).acts ++ match (runBody r 1).out with
          | none => okTail ++ epilogue r
          | some Exc.canceled => ([] : List Action)
          | some (Exc.raised Err.noInfo) => noInfoTail ++ epilogue r
          | some (Exc.raised Err.other) => excTail ++ epilogue r)) := by
    simp [run_circleguard, header]
  rw [hrw] at h ⊢
  have h2 := h (Action.ev (Event.label "Loading Replays"))
  simp only [checkedLoads, Bool.and_eq_true] at h2
  simp only [allLoadsChecked]
  rw [if_neg (by decide)]
  simp only [Bool.true_and]
  simp only [checkedLoads]
  rw [if_neg (by simp)]
  simp only [Bool.true_and]
  exact h2.2.2

theorem noLoadAfterSetPoll_of_no_poll {l : List Action} (h : Action.tokenPoll true ∉ l) :
    noLoadAfterSetPoll l = true := by
  induction l with
  | nil => rfl
  | cons a rest ih =>
    have ha : a ≠ Action.tokenPoll true := fun he => h (he ▸ List.mem_cons_self a rest)
    have hrest : Action.tokenPoll true ∉ rest := fun hm => h (List.mem_cons_of_mem a hm)
    simp only [noLoadAfterSetPoll, if_neg ha]
    exact ih hrest

theorem noLoadAfterSetPoll_append_cancelExit {l : List Action}
    (h : Action.tokenPoll true ∉ l) :
    noLoadAfterSetPoll (l ++ cancelExit) = true := by
  induction l with
  | nil => decide
  | cons a rest ih =>
    have ha : a ≠ Action.tokenPoll true := fun he => h (he ▸ List.mem_cons_self a rest)
    have hrest : Action.tokenPoll true ∉ rest := fun hm => h (List.mem_cons_of_mem a hm)
    simp only [List.cons_append, noLoadAfterSetPoll, if_neg ha]
    exact ih hrest

theorem no_set_poll_of_bodyOk {rid : Nat} {l : List Action} (h : BodyOk rid l) :
    Action.tokenPoll true ∉ l := by
  intro hm
  have := h _ hm
  simp [Action.bodyOk] at this

theorem noLoadAfterSetPoll_run (r : Run) :
    noLoadAfterSetPoll (run_circleguard r) = true := by
  cases hout : runOutcome r with
  | none =>
    rw [run_circleguard_ok hout]
    have hs := shape_runBody r 1
    unfold runOutcome at hout
    rw [hout] at hs
    apply noLoadAfterSetPoll_of_no_poll
    intro hm
    rcases List.mem_append.mp hm with hm | hm
    · rcases List.mem_append.mp hm with hm | hm
      · simp [header] at hm
      · exact no_set_poll_of_bodyOk hs hm
    · simp [okTail, epilogue] at hm
  | some exc =>
    cases exc with
    | canceled =>
      obtain ⟨p, heq, hb⟩ := run_circleguard_canceled hout
      rw [heq]
      apply noLoadAfterSetPoll_append_cancelExit
      intro hm
      rcases List.mem_append.mp hm with hm | hm
      · simp [header] at hm
      · exact no_set_poll_of_bodyOk hb hm
    | raised e =>
      have hs := shape_runBody r 1
      unfold runOutcome at hout
      rw [hout] at hs
      cases e with
      | noInfo =>
        rw [run_circleguard_noInfo (by unfold runOutcome; rw [hout])]
        apply noLoadAfterSetPoll_of_no_poll
        intro hm
        rcases List.mem_append.mp hm with hm | hm
        · rcases List.mem_append.mp hm with hm | hm
          · simp [header] at hm
          · exact no_set_poll_of_bodyOk hs hm
        · simp [noInfoTail, epilogue] at hm
      | other =>
        rw [run_circleguard_other (by unfold runOutcome; rw [hout])]
        apply noLoadAfterSetPoll_of_no_poll
        intro hm
        rcases List.mem_append.mp hm with hm | hm
        · rcases List.mem_append.mp hm with hm | hm
          · simp [header] at hm
          · exact no_set_poll_of_bodyOk hs hm
        · simp [excTail, epilogue] at hm

theorem sp0_not_mem_loadLoop (r : Run) (le : Option (Nat × Err)) :
    ∀ n cp i, Action.ev (Event.setProgress 0) ∉ (loadLoop r le n cp i).acts := by
  intro n
  induction n with
  | zero => intro cp i; simp [loadLoop]
  | succ n ih =>
    intro cp i
    by_cases h : r.tokenAt cp
    · simp [loadLoop, h, cancelExit]
    · cases hle : loadRaises le i with
      | some e => simp [loadLoop, h, hle]
      | none =>
        simp only [loadLoop, h, if_false, hle, Bool.false_eq_true]
        intro hm
        rcases List.mem_cons.mp hm with hm | hm
        · cases hm
        rcases List.mem_cons.mp hm with hm | hm
        · cases hm
        rcases List.mem_cons.mp hm with hm | hm
        · cases hm
        · exact ih (cp + 1) (i + 1) hm

theorem sp0_not_mem_resultLoop (r : Run) (te : Option Err) :
    ∀ rs cp, Action.ev (Event.setProgress 0) ∉ (resultLoop r te rs cp).acts := by
  intro rs
  induction rs with
  | nil =>
    intro cp
    cases te <;> simp [resultLoop]
  | cons res rest ih =>
    intro cp
    by_cases h : r.tokenAt cp
    · simp [resultLoop, h, cancelExit]
    · simp only [resultLoop, h, if_false, Bool.false_eq_true]
      intro hm
      rcases List.mem_cons.mp hm with hm | hm
      · cases hm
      rcases List.mem_cons.mp hm with hm | hm
      · cases hm
      · exact ih (cp + 1) hm

theorem sp0_not_mem_screenCheck (r : Run) (ec : EngineCheck) (cp : Nat) :
    Action.ev (Event.setProgress 0) ∉ (screenCheck r ec cp).acts := by
  cases hie : ec.loadInfoErr with
  | some e => simp [screenCheck, hie]
  | none =>
    by_cases hz : ec.numReplays = 0
    · simp [screenCheck, hie, hz]
    · simp only [screenCheck, hie, hz, if_false, Bool.false_eq_true]
      cases hout : (loadLoop r ec.loadErr ec.numReplays cp 0).out with
      | some e =>
        simp only [hout]
        intro hm
        rcases List.mem_append.mp hm with hm | hm
        · simp at hm
        · exact sp0_not_mem_loadLoop r ec.loadErr ec.numReplays cp 0 hm
      | none =>
        simp only [hout]
        intro hm
        rcases List.mem_append.mp hm with hm | hm
        · rcases List.mem_append.mp hm with hm | hm
          · rcases List.mem_append.mp hm with hm | hm
            · simp at hm
            · exact sp0_not_mem_loadLoop r ec.loadErr ec.numReplays cp 0 hm
          · simp [comparingBlock] at hm
        · exact sp0_not_mem_resultLoop r ec.resultsTailErr ec.results _ hm

theorem sp0_not_mem_screenChecksLoop (r : Run) :
    ∀ ecs cp, Action.ev (Event.setProgress 0) ∉ (screenChecksLoop r ecs cp).acts := by
  intro ecs
  induction ecs with
  | nil => intro cp; simp [screenChecksLoop]
  | cons ec rest ih =>
    intro cp
    cases hout : (screenCheck r ec cp).out with
    | some e =>
      simp only [screenChecksLoop, hout]
      exact sp0_not_mem_screenCheck r ec cp
    | none =>
      simp only [screenChecksLoop, hout]
      intro hm
      rcases List.mem_append.mp hm with hm | hm
      · exact sp0_not_mem_screenCheck r ec cp hm
      · exact ih (screenCheck r ec cp).cp hm

theorem sp0_not_mem_screenBody (r : Run) (ue : Option Err)
    (checks : List (List EngineCheck)) (cp : Nat) (htot : screenTotal checks ≠ 0) :
    Action.ev (Event.setProgress 0) ∉ (screenBody r ue checks cp).acts := by
  cases hue : ue with
  | some e => simp [screenBody, hue]
  | none =>
    simp only [screenBody, hue]
    intro hm
    rcases List.mem_append.mp hm with hm | hm
    · rcases List.mem_cons.mp hm with hm | hm
      · cases hm
      · rcases List.mem_singleton.mp hm with hm
        have : (screenTotal checks : Int) = 0 := by
          have := hm
          simp only [Action.ev.injEq, Event.setProgress.injEq] at this
          exact this.symm
        exact htot (by exact_mod_cast this)
    · exact sp0_not_mem_screenChecksLoop r checks.flatten cp hm

/-- Decomposition of the non-screen tail when loading ran to completion:
the indeterminate progress flip and the comparing block sit between the
loading loop and the result loop. -/
theorem simpleRest_reach (r : Run) (p : List Action) (ec : EngineCheck) (cp : Nat)
    (hout : (loadLoop r ec.loadErr ec.numReplays cp 0).out = none) :
    (simpleRest r p ec cp).acts =
      (p ++ [Action.ev (Event.terminal TermMsg.loadingReplays)] ++
        (loadLoop r ec.loadErr ec.numReplays cp 0).acts) ++
      (Action.ev (Event.setProgress 0) :: comparingBlock r.run_id) ++
      (resultLoop r ec.resultsTailErr ec.results
        (loadLoop r ec.loadErr ec.numReplays cp 0).cp).acts := by
  simp only [simpleRest, hout]

/-- The non-screen tail always extends the actions it is handed. -/
theorem simpleRest_split (r : Run) (p : List Action) (ec : EngineCheck) (cp : Nat) :
    ∃ X, (simpleRest r p ec cp).acts = p ++ X ∧ ChainAll X := by
  have hterm : ChainAll [Action.ev (Event.terminal TermMsg.loadingReplays)] :=
    ChainAll.of_no_load (by decide)
  have hld := chainAll_loadLoop r ec.loadErr ec.numReplays cp 0
  cases hout : (loadLoop r ec.loadErr ec.numReplays cp 0).out with
  | some e =>
    refine ⟨[Action.ev (Event.terminal TermMsg.loadingReplays)] ++
      (loadLoop r ec.loadErr ec.numReplays cp 0).acts, ?_, hterm.append hld⟩
    simp only [simpleRest, hout, List.append_assoc]
  | none =>
    have hblock : ChainAll (Action.ev (Event.setProgress 0) :: comparingBlock r.run_id) :=
      ChainAll.of_no_load (by simp [comparingBlock])
    have hrs : ChainAll (resultLoop r ec.resultsTailErr ec.results
        (loadLoop r ec.loadErr ec.numReplays cp 0).cp).acts :=
      ChainAll.of_no_load (no_load_resultLoop r ec.resultsTailErr ec.results _)
    refine ⟨[Action.ev (Event.terminal TermMsg.loadingReplays)] ++
      (loadLoop r ec.loadErr ec.numReplays cp 0).acts ++
      (Action.ev (Event.setProgress 0) :: comparingBlock r.run_id) ++
      (resultLoop r ec.resultsTailErr ec.results
        (loadLoop r ec.loadErr ec.numReplays cp 0).cp).acts, ?_,
      ((hterm.append hld).append hblock).append hrs⟩
    simp only [simpleRest, hout, List.append_assoc]

/-- run_circleguard in segment form: header, try-block actions, then the
outcome-dependent tail. -/
theorem run_circleguard_eq (r : Run) :
    run_circleguard r = header r ++ (runBody r 1).acts ++
      (match (runBody r 1).out with
        | none => okTail ++ epilogue r
        | some Exc.canceled => ([] : List Action)
        | some (Exc.raised Err.noInfo) => noInfoTail ++ epilogue r
        | some (Exc.raised Err.other) => excTail ++ epilogue r) := rfl

/-- The outcome-dependent tail never issues a load call and never polls the
token. -/
theorem chainAll_runTail (r : Run) :
    ChainAll (match (runBody r 1).out with
      | none => okTail ++ epilogue r
      | some Exc.canceled => ([] : List Action)
      | some (Exc.raised Err.noInfo) => noInfoTail ++ epilogue r
      | some (Exc.raised Err.other) => excTail ++ epilogue r) := by
  cases hout : (runBody r 1).out with
  | none => exact ChainAll.of_no_load (by simp [okTail, epilogue])
  | some exc =>
    cases exc with
    | canceled => intro q; rfl
    | raised e =>
      cases e with
      | noInfo => exact ChainAll.of_no_load (by simp [noInfoTail, epilogue])
      | other => exact ChainAll.of_no_load (by simp [excTail, epilogue])

theorem labelsOf_append (l₁ l₂ : List Action) :
    labelsOf (l₁ ++ l₂) = labelsOf l₁ ++ labelsOf l₂ :=
  List.filterMap_append l₁ l₂ _

theorem eventsOf_cons_poll (b : Bool) (l : List Action) :
    eventsOf (Action.tokenPoll b :: l) = eventsOf l := rfl

/-- A queue in which every run that is live at dequeue time has an id
different from rid never emits a run-status event for rid. -/
theorem runStatus_not_mem_queue {rid : Nat} {Q : List Run}
    (hQ : ∀ r2 ∈ Q, r2.tokenAt 0 = false → r2.run_id ≠ rid) (s : String) :
    Event.runStatus rid s ∉ eventsOf (check_circleguard_queue Q) := by
  induction Q with
  | nil => simp [check_circleguard_queue, eventsOf]
  | cons r2 rest ih =>
    have hrest : ∀ r3 ∈ rest, r3.tokenAt 0 = false → r3.run_id ≠ rid :=
      fun r3 hm => hQ r3 (List.mem_cons_of_mem r2 hm)
    by_cases h2 : r2.tokenAt 0
    · simp only [check_circleguard_queue, h2, if_true, eventsOf_cons_poll]
      exact ih hrest
    · simp only [check_circleguard_queue, h2, if_false, Bool.false_eq_true,
        List.cons_append, eventsOf_cons_poll, eventsOf_append]
      intro hm
      rcases List.mem_append.mp hm with hm | hm
      · have hid := runStatus_id (mem_eventsOf.mp hm)
        exact hQ r2 (List.mem_cons_self r2 rest) (by simp [h2]) hid.symm
      · exact ih hrest hm

/-- With no cancellations the supervisor loop starts runs in exactly queue
order. -/
theorem startedIds_no_cancel {q : List Run} (h : ∀ r ∈ q, r.cancelAt = none) :
    startedIds (check_circleguard_queue q) = q.map Run.run_id := by
  induction q with
  | nil => rfl
  | cons r rest ih =>
    have hr : r.cancelAt = none := h r (List.mem_cons_self r rest)
    have htok : r.tokenAt 0 = false := by simp [Run.tokenAt, hr]
    have hrest : ∀ r2 ∈ rest, r2.cancelAt = none :=
      fun r2 hm => h r2 (List.mem_cons_of_mem r hm)
    simp only [check_circleguard_queue, htok, Bool.false_eq_true, if_false,
      List.cons_append, List.map_cons]
    have : startedIds (Action.tokenPoll false ::
        (run_circleguard r ++ check_circleguard_queue rest)) =
        startedIds (run_circleguard r ++ check_circleguard_queue rest) := rfl
    rw [this, startedIds_append, startedIds_run, ih hrest]
    rfl

theorem submitAll_cancelAt : ∀ (specs : List RunSpec) (k : Nat),
    ∀ r ∈ submitAll specs k, r.cancelAt = none := by
  intro specs
  induction specs with
  | nil => intro k r hm; simp [submitAll] at hm
  | cons sp rest ih =>
    intro k r hm
    rcases List.mem_cons.mp hm with rfl | hm
    · rfl
    · exact ih (k + 1) r hm

theorem submitAll_map_id : ∀ (specs : List RunSpec) (k : Nat),
    (submitAll specs k).map Run.run_id = List.range' k specs.length := by
  intro specs
  induction specs with
  | nil => intro k; rfl
  | cons sp rest ih =>
    intro k
    simp only [submitAll, List.map_cons, List.length_cons, List.range']
    rw [ih (k + 1)]

theorem runStatus_not_mem_header {r : Run} {i : Nat} {s : String}
    (hs : s ≠ "Loading Replays") : Action.ev (Event.runStatus i s) ∉ header r := by
  intro hm
  rcases List.mem_cons.mp hm with hm | hm
  · exact Event.noConfusion (Action.ev.inj hm)
  · rcases List.mem_singleton.mp hm with hm
    exact hs (Event.runStatus.inj (Action.ev.inj hm)).2

theorem label_not_mem_header {r : Run} {s : String}
    (hs : s ≠ "Loading Replays") : Action.ev (Event.label s) ∉ header r := by
  intro hm
  rcases List.mem_cons.mp hm with hm | hm
  · exact hs (Event.label.inj (Action.ev.inj hm))
  · rcases List.mem_singleton.mp hm with hm
    exact Event.noConfusion (Action.ev.inj hm)

theorem setProgress_not_mem_header {r : Run} {n : Int} :
    Action.ev (Event.setProgress n) ∉ header r := by
  intro hm
  rcases List.mem_cons.mp hm with hm | hm
  · exact Event.noConfusion (Action.ev.inj hm)
  · rcases List.mem_singleton.mp hm with hm
    exact Event.noConfusion (Action.ev.inj hm)

theorem label_not_mem_cancelExit {s : String} (hs : s ≠ "Canceled") :
    Action.ev (Event.label s) ∉ cancelExit := by
  intro hm
  rcases List.mem_cons.mp hm with hm | hm
  · exact Action.noConfusion hm
  rcases List.mem_cons.mp hm with hm | hm
  · exact hs (Event.label.inj (Action.ev.inj hm))
  · rcases List.mem_singleton.mp hm with hm
    exact Event.noConfusion (Action.ev.inj hm)

theorem bodyOk_no_label {rid : Nat} {p : List Action} (hb : BodyOk rid p) {s : String}
    (hs : s ≠ "Comparing Replays") : Action.ev (Event.label s) ∉ p := by
  intro hm
  have := hb _ hm
  simp only [Action.bodyOk, decide_eq_true_eq] at this
  exact hs this

theorem bodyOk_no_runStatus {rid : Nat} {p : List Action} (hb : BodyOk rid p) {i : Nat}
    {s : String} (hs : s ≠ "Comparing Replays") :
    Action.ev (Event.runStatus i s) ∉ p := by
  intro hm
  have := hb _ hm
  simp only [Action.bodyOk, Bool.and_eq_true, decide_eq_true_eq] at this
  exact hs this.2

theorem bodyOk_no_negProgress {rid : Nat} {p : List Action} (hb : BodyOk rid p) :
    Action.ev (Event.setProgress (-1)) ∉ p := by
  intro hm
  have := hb _ hm
  simp only [Action.bodyOk, decide_eq_true_eq] at this
  exact absurd this (by decide)

/-- C4: every Run whose cancellation token is already set at the moment the
supervisor dequeues it is discarded without entering Loading: the
observable event stream of the queue containing it equals that of the
queue without it, no (run_id, status) event for it is ever emitted (given
that the other queued runs carry different ids), and a queue holding only
it produces no result events at all. -/
theorem C4_cancel_skip (r : Run) (q₁ q₂ : List Run) (h : r.tokenAt 0 = true)
    (hfresh : ∀ r2 ∈ q₁ ++ q₂, r2.run_id ≠ r.run_id) :
    eventsOf (check_circleguard_queue (q₁ ++ r :: q₂)) =
      eventsOf (check_circleguard_queue (q₁ ++ q₂)) ∧
    (∀ s, Event.runStatus r.run_id s ∉
      eventsOf (check_circleguard_queue (q₁ ++ r :: q₂))) ∧
    (∀ res, Event.resultEv res ∉ eventsOf (check_circleguard_queue [r])) := by
  refine ⟨?_, ?_, ?_⟩
  · rw [check_queue_append q₁ (r :: q₂), check_queue_append q₁ q₂,
      eventsOf_append, eventsOf_append]
    congr 1
    simp only [check_circleguard_queue, h, if_true, eventsOf_cons_poll]
  · intro s
    apply runStatus_not_mem_queue
    intro r2 hm h2
    rcases List.mem_append.mp hm with hm | hm
    · exact hfresh r2 (List.mem_append.mpr (Or.inl hm))
    · rcases List.mem_cons.mp hm with rfl | hm
      · simp [h] at h2
      · exact hfresh r2 (List.mem_append.mpr (Or.inr hm))
  · intro res
    simp [check_circleguard_queue, h, eventsOf, Action.evOf]

/-- Witness for C4: a pre-canceled run queued in front of a live one. -/
theorem C4_cancel_skip_witness :
    (wRunPre.tokenAt 0 = true ∧
      ∀ r2 ∈ ([] : List Run) ++ [wRunNext], r2.run_id ≠ wRunPre.run_id) ∧
    (eventsOf (check_circleguard_queue ([] ++ wRunPre :: [wRunNext])) =
        eventsOf (check_circleguard_queue ([] ++ [wRunNext])) ∧
      (∀ s, Event.runStatus wRunPre.run_id s ∉
        eventsOf (check_circleguard_queue ([] ++ wRunPre :: [wRunNext]))) ∧
      (∀ res, Event.resultEv res ∉ eventsOf (check_circleguard_queue [wRunPre]))) :=
  ⟨⟨by decide, by decide⟩, C4_cancel_skip wRunPre [] [wRunNext] (by decide) (by decide)⟩

/-- C7: with no cancellations, runs are started (emit their Loading
Replays status) in exactly submission order: the supervisor trace's
started-id sequence equals the queue's id sequence, and for a queue built
by successive submissions (ids assigned by the incrementing counter) it is
exactly the ascending id range. -/
theorem C7_fifo_start_order (q : List Run) (h : ∀ r ∈ q, r.cancelAt = none) :
    startedIds (check_circleguard_queue q) = q.map Run.run_id ∧
    (∀ (specs : List RunSpec) (k : Nat),
      startedIds (check_circleguard_queue (submitAll specs k)) =
        List.range' k specs.length) := by
  refine ⟨startedIds_no_cancel h, ?_⟩
  intro specs k
  rw [startedIds_no_cancel (submitAll_cancelAt specs k), submitAll_map_id]

/-- Witness for C7 at a concrete two-run queue. -/
theorem C7_fifo_start_order_witness :
    (∀ r ∈ [wRunMap, wRunNext], r.cancelAt = none) ∧
    (startedIds (check_circleguard_queue [wRunMap, wRunNext]) =
        [wRunMap, wRunNext].map Run.run_id ∧
      ∀ (specs : List RunSpec) (k : Nat),
        startedIds (check_circleguard_queue (submitAll specs k)) =
          List.range' k specs.length) :=
  ⟨by decide, C7_fifo_start_order [wRunMap, wRunNext] (by decide)⟩

/-- C5: a run whose try-block raises is contained at the run boundary:
NoInfoAvailable writes the user-facing message and resets progress, any
other exception is logged, in both cases the run is marked Finished (and
the label reset to Idle), and the supervisor trace of any queue decomposes
as the concatenation of its runs' traces, so an error in one run leaves
every subsequently queued run's trace unchanged. -/
theorem C5_failure_containment (r : Run) (e : Err)
    (h : runOutcome r = some (Exc.raised e)) :
    (e = Err.noInfo → Action.ev (Event.terminal TermMsg.noInfoMsg) ∈ run_circleguard r ∧
      Action.ev (Event.setProgress (-1)) ∈ run_circleguard r) ∧
    (e = Err.other → Action.ev Event.logExc ∈ run_circleguard r) ∧
    Action.ev (Event.runStatus r.run_id "Finished") ∈ run_circleguard r ∧
    Action.ev (Event.label "Idle") ∈ run_circleguard r ∧
    (∀ q₁ q₂, check_circleguard_queue (q₁ ++ q₂) =
      check_circleguard_queue q₁ ++ check_circleguard_queue q₂) := by
  cases e with
  | noInfo =>
    have heq := run_circleguard_noInfo h
    refine ⟨fun _ => ⟨?_, ?_⟩, fun he => absurd he (by decide), ?_, ?_, check_queue_append⟩
    · rw [heq]
      simp [noInfoTail]
    · rw [heq]
      simp [noInfoTail]
    · rw [heq]
      simp [epilogue]
    · rw [heq]
      simp [epilogue]
  | other =>
    have heq := run_circleguard_other h
    refine ⟨fun he => absurd he (by decide), fun _ => ?_, ?_, ?_, check_queue_append⟩
    · rw [heq]
      simp [excTail]
    · rw [heq]
      simp [epilogue]
    · rw [heq]
      simp [epilogue]

/-- Witness for C5: a map run whose load_info raises
NoInfoAvailableException. -/
theorem C5_failure_containment_witness :
    runOutcome wRunNoInfo = some (Exc.raised Err.noInfo) ∧
    ((Err.noInfo = Err.noInfo →
        Action.ev (Event.terminal TermMsg.noInfoMsg) ∈ run_circleguard wRunNoInfo ∧
        Action.ev (Event.setProgress (-1)) ∈ run_circleguard wRunNoInfo) ∧
      (Err.noInfo = Err.other → Action.ev Event.logExc ∈ run_circleguard wRunNoInfo) ∧
      Action.ev (Event.runStatus wRunNoInfo.run_id "Finished") ∈ run_circleguard wRunNoInfo ∧
      Action.ev (Event.label "Idle") ∈ run_circleguard wRunNoInfo ∧
      (∀ q₁ q₂, check_circleguard_queue (q₁ ++ q₂) =
        check_circleguard_queue q₁ ++ check_circleguard_queue q₂)) :=
  ⟨by decide, C5_failure_containment wRunNoInfo Err.noInfo (by decide)⟩

/-- C10: a run canceled mid-execution exits through SystemExit in the
cancellation check, bypassing the Exception handler and the epilogue: its
trace contains no (run_id, Finished) status and no Idle label, and the
last value the global activity label takes is Canceled. -/
theorem C10_cancel_bypasses_epilogue (r : Run) (h : runOutcome r = some Exc.canceled) :
    Action.ev (Event.runStatus r.run_id "Finished") ∉ run_circleguard r ∧
    Action.ev (Event.label "Idle") ∉ run_circleguard r ∧
    (∃ ls, labelsOf (run_circleguard r) = ls ++ ["Canceled"]) := by
  obtain ⟨p, heq, hb⟩ := run_circleguard_canceled h
  refine ⟨?_, ?_, ?_⟩
  · rw [heq]
    intro hm
    rcases List.mem_append.mp hm with hm | hm
    · rcases List.mem_append.mp hm with hm | hm
      · exact runStatus_not_mem_header (by decide) hm
      · exact bodyOk_no_runStatus hb (by decide) hm
    · simp [cancelExit] at hm
  · rw [heq]
    intro hm
    rcases List.mem_append.mp hm with hm | hm
    · rcases List.mem_append.mp hm with hm | hm
      · exact label_not_mem_header (by decide) hm
      · exact bodyOk_no_label hb (by decide) hm
    · exact label_not_mem_cancelExit (by decide) hm
  · rw [heq, labelsOf_append]
    exact ⟨labelsOf (header r ++ p), rfl⟩

/-- Witness for C10: a map run canceled at the first executor checkpoint. -/
theorem C10_cancel_bypasses_epilogue_witness :
    runOutcome wRunCancel2 = some Exc.canceled ∧
    (Action.ev (Event.runStatus wRunCancel2.run_id "Finished") ∉ run_circleguard wRunCancel2 ∧
      Action.ev (Event.label "Idle") ∉ run_circleguard wRunCancel2 ∧
      (∃ ls, labelsOf (run_circleguard wRunCancel2) = ls ++ ["Canceled"])) :=
  ⟨by decide, C10_cancel_bypasses_epilogue wRunCancel2 (by decide)⟩

/-- C2 (counterexample): wRunCancel's token becomes set during Loading and
the executor aborts through the cancellation check, but the run-status
event stream — the (run_id, status) observable, which per the spec carries
every status transition — never receives a Canceled entry for it; only the
global activity label does. -/
theorem C2_counterexample :
    runOutcome wRunCancel = some Exc.canceled ∧
    (run_circleguard wRunCancel).count (Action.ev (Event.label "Canceled")) = 1 ∧
    Action.ev (Event.runStatus 0 "Canceled") ∉ run_circleguard wRunCancel := by
  refine ⟨by decide, by decide, by decide⟩

/-- C2 (amended): a run whose token is observed set at a checkpoint stops
there: its trace ends with the observing poll, exactly one Canceled update
of the global activity label and exactly one progress reset to -1, nothing
(in particular no result) follows the cancellation point, and no
(run_id, Canceled) run-status event is ever emitted. -/
theorem C2_cancel_observed (r : Run) (h : runOutcome r = some Exc.canceled) :
    (∃ l, run_circleguard r = l ++ [Action.tokenPoll true,
      Action.ev (Event.label "Canceled"), Action.ev (Event.setProgress (-1))]) ∧
    (run_circleguard r).count (Action.ev (Event.label "Canceled")) = 1 ∧
    (run_circleguard r).count (Action.ev (Event.setProgress (-1))) = 1 ∧
    Action.ev (Event.runStatus r.run_id "Canceled") ∉ run_circleguard r := by
  obtain ⟨p, heq, hb⟩ := run_circleguard_canceled h
  have hnc1 : Action.ev (Event.label "Canceled") ∉ header r ++ p := by
    intro hm
    rcases List.mem_append.mp hm with hm | hm
    · exact label_not_mem_header (by decide) hm
    · exact bodyOk_no_label hb (by decide) hm
  have hnc2 : Action.ev (Event.setProgress (-1)) ∉ header r ++ p := by
    intro hm
    rcases List.mem_append.mp hm with hm | hm
    · exact setProgress_not_mem_header hm
    · exact bodyOk_no_negProgress hb hm
  refine ⟨⟨header r ++ p, by rw [heq]; rfl⟩, ?_, ?_, ?_⟩
  · rw [heq, List.count_append, List.count_eq_zero.mpr hnc1]
    decide
  · rw [heq, List.count_append, List.count_eq_zero.mpr hnc2]
    decide
  · rw [heq]
    intro hm
    rcases List.mem_append.mp hm with hm | hm
    · rcases List.mem_append.mp hm with hm | hm
      · exact runStatus_not_mem_header (by decide) hm
      · exact bodyOk_no_runStatus hb (by decide) hm
    · simp [cancelExit] at hm

/-- Witness for the amended C2 at a verify run canceled mid-Loading. -/
theorem C2_cancel_observed_witness :
    runOutcome wRunCancel = some Exc.canceled ∧
    ((∃ l, run_circleguard wRunCancel = l ++ [Action.tokenPoll true,
        Action.ev (Event.label "Canceled"), Action.ev (Event.setProgress (-1))]) ∧
      (run_circleguard wRunCancel).count (Action.ev (Event.label "Canceled")) = 1 ∧
      (run_circleguard wRunCancel).count (Action.ev (Event.setProgress (-1))) = 1 ∧
      Action.ev (Event.runStatus wRunCancel.run_id "Canceled") ∉ run_circleguard wRunCancel) :=
  ⟨by decide, C2_cancel_observed wRunCancel (by decide)⟩

/-- C3 (counterexample): for the local run wRunLocal the map-id peek
cg.load(replays[0]) at gui.py 797 is issued without any preceding
cancellation check, so the whole-trace every-load-is-checked scan fails,
although the trace does contain load calls. -/
theorem C3_counterexample :
    allLoadsChecked (run_circleguard wRunLocal) = false ∧
    Action.loadCall ∈ run_circleguard wRunLocal := by
  refine ⟨by decide, by decide⟩

/-- C3 (amended): every cg.load call issued in the per-unit loading loops
is directly preceded by a cancellation check that observed the token
unset, and once any check observes the token set no load call follows —
for every run of a non-Local kind the whole trace therefore passes the
every-load-is-checked scan, while a Local run issues exactly one extra
unchecked load (the map-id peek of the first replay, before the loading
loop), after which all further loads are checked. -/
theorem C3_loads_checked (r rl : Run) (l0 : Option Err) (ec : EngineCheck)
    (hnl : ∀ a b, r.spec ≠ RunSpec.localRun a b)
    (hl : rl.spec = RunSpec.localRun l0 ec) (hinfo : ec.loadInfoErr = none)
    (hnum : ec.numReplays ≠ 0) :
    allLoadsChecked (run_circleguard r) = true ∧
    noLoadAfterSetPoll (run_circleguard r) = true ∧
    noLoadAfterSetPoll (run_circleguard rl) = true ∧
    (∃ rest, run_circleguard rl = header rl ++ [Action.loadInfoCall,
        Action.ev (Event.setProgress (ec.numReplays : Int)), Action.loadCall] ++ rest ∧
      checkedLoads Action.loadCall rest = true) := by
  refine ⟨?_, noLoadAfterSetPoll_run r, noLoadAfterSetPoll_run rl, ?_⟩
  · apply allLoadsChecked_run_of_chainAll
    apply chainAll_run_of_body
    cases hs : r.spec with
    | mapRun ec2 =>
      simp only [runBody, hs]
      exact chainAll_simpleBody_nonlocal r ec2 1
    | screenRun ue checks =>
      simp only [runBody, hs]
      exact chainAll_screenBody r ue checks 1
    | localRun a b => exact absurd hs (hnl a b)
    | verifyRun ec2 =>
      simp only [runBody, hs]
      exact chainAll_simpleBody_nonlocal r ec2 1
  · have hacts : ∃ X, (runBody rl 1).acts =
        [Action.loadInfoCall, Action.ev (Event.setProgress (ec.numReplays : Int)),
         Action.loadCall] ++ X ∧ ChainAll X := by
      simp only [runBody, hl]
      cases hl0 : l0 with
      | some e =>
        refine ⟨[], ?_, fun q => rfl⟩
        simp [simpleBody, hinfo, hnum, hl0]
      | none =>
        obtain ⟨X, hX, hcX⟩ := simpleRest_split rl
          ([Action.loadInfoCall, Action.ev (Event.setProgress (ec.numReplays : Int))] ++
            [Action.loadCall]) ec 1
        refine ⟨X, ?_, hcX⟩
        simp only [simpleBody, hinfo, hnum, if_false, hl0, if_true]
        rw [hX]
        simp [List.append_assoc]
    obtain ⟨X, hX, hcX⟩ := hacts
    refine ⟨X ++ (match (runBody rl 1).out with
      | none => okTail ++ epilogue rl
      | some Exc.canceled => ([] : List Action)
      | some (Exc.raised Err.noInfo) => noInfoTail ++ epilogue rl
      | some (Exc.raised Err.other) => excTail ++ epilogue rl), ?_, ?_⟩
    · rw [run_circleguard_eq rl, hX]
      simp [List.append_assoc]
    · exact checkedLoads_append_of (chainAll_runTail rl) X Action.loadCall
        (hcX Action.loadCall)

/-- Witness for the amended C3 at a concrete map run and a concrete local
run. -/
theorem C3_loads_checked_witness :
    (wRunLocal.spec = RunSpec.localRun none wEc1 ∧ wEc1.loadInfoErr = none ∧
      wEc1.numReplays ≠ 0) ∧
    (allLoadsChecked (run_circleguard wRunMap) = true ∧
      noLoadAfterSetPoll (run_circleguard wRunMap) = true ∧
      noLoadAfterSetPoll (run_circleguard wRunLocal) = true ∧
      (∃ rest, run_circleguard wRunLocal = header wRunLocal ++ [Action.loadInfoCall,
          Action.ev (Event.setProgress (wEc1.numReplays : Int)), Action.loadCall] ++ rest ∧
        checkedLoads Action.loadCall rest = true)) :=
  ⟨⟨by decide, by decide, by decide⟩,
    C3_loads_checked wRunMap wRunLocal none wEc1
      (fun a b hcontra => by simp [wRunMap] at hcontra)
      (by decide) (by decide) (by decide)⟩

/-- Helper for C9: when the loading loop of a non-screen run completes,
its body splits around the indeterminate progress flip and the comparing
block. -/
theorem simpleBody_acts_reach (r : Run) (isLocal : Bool) (l0 : Option Err)
    (ec : EngineCheck) (hinfo : ec.loadInfoErr = none) (hnum : ec.numReplays ≠ 0)
    (hl0 : isLocal = true → l0 = none)
    (hload : (loadLoop r ec.loadErr ec.numReplays 1 0).out = none) :
    ∃ p, (simpleBody r isLocal l0 ec 1).acts =
      p ++ (Action.ev (Event.setProgress 0) :: comparingBlock r.run_id) ++
      (resultLoop r ec.resultsTailErr ec.results
        (loadLoop r ec.loadErr ec.numReplays 1 0).cp).acts := by
  cases isLocal with
  | false =>
    refine ⟨[Action.loadInfoCall, Action.ev (Event.setProgress (ec.numReplays : Int))] ++
      [Action.ev (Event.terminal TermMsg.loadingReplays)] ++
      (loadLoop r ec.loadErr ec.numReplays 1 0).acts, ?_⟩
    simp only [simpleBody, hinfo, hnum, if_false, Bool.false_eq_true]
    exact simpleRest_reach r _ ec 1 hload
  | true =>
    have hl0n : l0 = none := hl0 rfl
    refine ⟨([Action.loadInfoCall, Action.ev (Event.setProgress (ec.numReplays : Int))] ++
      [Action.loadCall]) ++
      [Action.ev (Event.terminal TermMsg.loadingReplays)] ++
      (loadLoop r ec.loadErr ec.numReplays 1 0).acts, ?_⟩
    simp only [simpleBody, hinfo, hnum, if_false, hl0n, if_true, Bool.false_eq_true]
    exact simpleRest_reach r _ ec 1 hload

/-- C9 (counterexample): a screen run reaches Comparing Replays but its
trace contains no indeterminate progress event (set_progressbar(0)): the
screen branch of run_circleguard omits the flip that the non-screen
branch performs at gui.py 815. -/
theorem C9_counterexample :
    Action.ev (Event.runStatus 0 "Comparing Replays") ∈ run_circleguard wRunScreen ∧
    Action.ev (Event.setProgress 0) ∉ run_circleguard wRunScreen := by
  refine ⟨by decide, by decide⟩

/-- C9 (amended): for Map, Local and Verify runs whose loading completes,
the executor emits the indeterminate progress flip (set_progressbar(0))
immediately followed by the comparing block (the starting-comparing
message, the Comparing Replays label and the Comparing Replays run-status
event); a Screen run (with a nonzero total unit count) emits the
Comparing Replays status per sub-check but never any indeterminate
progress event. -/
theorem C9_comparing_indeterminate (r rs : Run) (ue : Option Err)
    (checks : List (List EngineCheck)) (ec : EngineCheck)
    (hscreen : rs.spec = RunSpec.screenRun ue checks)
    (htot : screenTotal checks ≠ 0)
    (hsimple : r.spec = RunSpec.mapRun ec ∨ r.spec = RunSpec.verifyRun ec ∨
      r.spec = RunSpec.localRun none ec)
    (hinfo : ec.loadInfoErr = none) (hnum : ec.numReplays ≠ 0)
    (hload : (loadLoop r ec.loadErr ec.numReplays 1 0).out = none) :
    Action.ev (Event.setProgress 0) ∉ run_circleguard rs ∧
    (∃ l rest, run_circleguard r = l ++ (Action.ev (Event.setProgress 0) ::
      comparingBlock r.run_id) ++ rest) := by
  constructor
  · intro hm
    rcases mem_run_segments hm with hm | hm | hm | hm | hm | hm
    · exact setProgress_not_mem_header hm
    · rw [show runBody rs 1 = screenBody rs ue checks 1 by simp only [runBody, hscreen]] at hm
      exact sp0_not_mem_screenBody rs ue checks 1 htot hm
    · simp [okTail] at hm
    · simp [noInfoTail] at hm
    · simp [excTail] at hm
    · simp [epilogue] at hm
  · have hacts : ∃ p, (runBody r 1).acts =
        p ++ (Action.ev (Event.setProgress 0) :: comparingBlock r.run_id) ++
        (resultLoop r ec.resultsTailErr ec.results
          (loadLoop r ec.loadErr ec.numReplays 1 0).cp).acts := by
      rcases hsimple with hs | hs | hs
      · rw [show runBody r 1 = simpleBody r false none ec 1 by simp only [runBody, hs]]
        exact simpleBody_acts_reach r false none ec hinfo hnum (by intro hcontra; cases hcontra) hload
      · rw [show runBody r 1 = simpleBody r false none ec 1 by simp only [runBody, hs]]
        exact simpleBody_acts_reach r false none ec hinfo hnum (by intro hcontra; cases hcontra) hload
      · rw [show runBody r 1 = simpleBody r true none ec 1 by simp only [runBody, hs]]
        exact simpleBody_acts_reach r true none ec hinfo hnum (fun _ => rfl) hload
    obtain ⟨p, hp⟩ := hacts
    refine ⟨header r ++ p, (resultLoop r ec.resultsTailErr ec.results
      (loadLoop r ec.loadErr ec.numReplays 1 0).cp).acts ++
      (match (runBody r 1).out with
        | none => okTail ++ epilogue r
        | some Exc.canceled => ([] : List Action)
        | some (Exc.raised Err.noInfo) => noInfoTail ++ epilogue r
        | some (Exc.raised Err.other) => excTail ++ epilogue r), ?_⟩
    rw [run_circleguard_eq r, hp]
    simp [List.append_assoc]

/-- Witness for the amended C9 at a concrete map run and a concrete screen
run. -/
theorem C9_comparing_indeterminate_witness :
    (wRunScreen.spec = RunSpec.screenRun none [[wEc1]] ∧ screenTotal [[wEc1]] ≠ 0 ∧
      wEc1.loadInfoErr = none ∧ wEc1.numReplays ≠ 0 ∧
      (loadLoop wRunMap wEc1.loadErr wEc1.numReplays 1 0).out = none) ∧
    (Action.ev (Event.setProgress 0) ∉ run_circleguard wRunScreen ∧
      ∃ l rest, run_circleguard wRunMap = l ++ (Action.ev (Event.setProgress 0) ::
        comparingBlock wRunMap.run_id) ++ rest) :=
  ⟨⟨by decide, by decide, by decide, by decide, by decide⟩,
    C9_comparing_indeterminate wRunMap wRunScreen none [[wEc1]] wEc1 (by decide)
      (by decide) (Or.inl (by decide)) (by decide) (by decide) (by decide)⟩

/-- C8: the consumer-side classification of a drained result is a pure
function of the result and the display threshold (with is_cheat itself
derived from the cheat threshold on the engine side): an is_cheat result
yields the cheater message, the audible beep, the window alert and the
persistent-review surface, a non-cheat result below the display threshold
yields only a log message, and anything else is discarded silently;
print_results applies this classification to every pending result in FIFO
order. -/
theorem C8_result_classification (cheatThresh dispThresh sim : ℚ) (res : Result)
    (pending : List Result) :
    print_results dispThresh pending = pending.flatMap (resultActions dispThresh) ∧
    resultActions dispThresh res =
      (if res.ischeat then
        [Event.terminal TermMsg.cheaterMsg, Event.beep, Event.alertWindow,
         Event.addComparison res]
      else if res.similarity < dispThresh then [Event.terminal TermMsg.noCheaterMsg]
      else []) ∧
    resultActions dispThresh (mkResult cheatThresh sim) =
      (if sim < cheatThresh then
        [Event.terminal TermMsg.cheaterMsg, Event.beep, Event.alertWindow,
         Event.addComparison (mkResult cheatThresh sim)]
      else if sim < dispThresh then [Event.terminal TermMsg.noCheaterMsg]
      else []) := by
  refine ⟨rfl, rfl, ?_⟩
  by_cases h : sim < cheatThresh
  · simp [mkResult, resultActions, h]
  · simp [mkResult, resultActions, h]

theorem countSleeps_cons_sleep (d : ℚ) (l : List RlAct) :
    countSleeps (RlAct.sleep d :: l) = countSleeps l + 1 := by
  simp [countSleeps, List.countP_cons]

theorem countSleeps_cons_check (b : Bool) (l : List RlAct) :
    countSleeps (RlAct.checkStopped b :: l) = countSleeps l := by
  simp [countSleeps, List.countP_cons]

theorem countSleeps_cons_signal (l : List RlAct) :
    countSleeps (RlAct.signal :: l) = countSleeps l := by
  simp [countSleeps, List.countP_cons]

/-- Without cancellation the wait loop is exactly n sleep-then-check
increments. -/
theorem ratelimitLoop_no_cancel (token : Nat → Bool) (h : ∀ i, token i = false) :
    ∀ n i, ratelimitLoop token n i =
      (List.replicate n [RlAct.sleep INTERVAL, RlAct.checkStopped false]).flatten := by
  intro n
  induction n with
  | zero => intro i; rfl
  | succ n ih =>
    intro i
    simp only [ratelimitLoop, h i, if_false, Bool.false_eq_true, List.replicate_succ,
      List.flatten_cons]
    rw [ih (i + 1)]
    rfl

/-- With the token first set at index s, the wait loop from index i ≤ s
sleeps exactly min (s + 1 - i) n times: at most one sleep happens at or
after the set point. -/
theorem ratelimitLoop_sleeps_cancel (token : Nat → Bool) (s : Nat)
    (hs : token s = true) (hfirst : ∀ k, k < s → token k = false) :
    ∀ n i, i ≤ s → countSleeps (ratelimitLoop token n i) = min (s + 1 - i) n := by
  intro n
  induction n with
  | zero =>
    intro i hi
    simp [ratelimitLoop, countSleeps]
  | succ n ih =>
    intro i hi
    by_cases hii : i = s
    · subst hii
      simp only [ratelimitLoop, hs, if_true]
      rw [countSleeps_cons_sleep, countSleeps_cons_check]
      simp only [countSleeps, List.countP_nil]
      omega
    · have hlt : i < s := lt_of_le_of_ne hi hii
      have hf := hfirst i hlt
      simp only [ratelimitLoop, hf, if_false, Bool.false_eq_true]
      rw [countSleeps_cons_sleep, countSleeps_cons_check, ih (i + 1) hlt]
      omega

/-- C6: the rate-limit wait of TrackerLoader consists of exactly
ceil(L / 0.25) fixed-size increments — for an integral backoff of n
seconds, 4n of them — each increment a 0.25-second sleep followed by a
cancellation check; a token whose first set observation index is s is
observed at the check ending increment s, so at most one sleep (one
increment) completes at or after the token is set, rather than the full
backoff. -/
theorem C6_ratelimit_increments (L : ℚ) (token tok0 : Nat → Bool) (s : Nat)
    (h0 : ∀ i, tok0 i = false) (hs : token s = true)
    (hfirst : ∀ k, k < s → token k = false) :
    ratelimit tok0 L = RlAct.signal ::
      (List.replicate (ratelimitRounds L)
        [RlAct.sleep INTERVAL, RlAct.checkStopped false]).flatten ∧
    (∀ n : Nat, ratelimitRounds (n : ℚ) = 4 * n) ∧
    countSleeps (ratelimit token L) = min (s + 1) (ratelimitRounds L) ∧
    countSleeps (ratelimit token L) ≤ s + 1 := by
  have hrounds : ∀ n : Nat, ratelimitRounds (n : ℚ) = 4 * n := by
    intro n
    unfold ratelimitRounds INTERVAL
    rw [show ((n : ℚ) / (1 / 4)) = ((4 * n : Nat) : ℚ) by push_cast; ring]
    rw [Int.ceil_natCast]
    omega
  have hcount : countSleeps (ratelimit token L) = min (s + 1) (ratelimitRounds L) := by
    unfold ratelimit
    rw [countSleeps_cons_signal,
      ratelimitLoop_sleeps_cancel token s hs hfirst (ratelimitRounds L) 0 (Nat.zero_le s)]
    simp
  refine ⟨?_, hrounds, hcount, ?_⟩
  · unfold ratelimit
    rw [ratelimitLoop_no_cancel tok0 h0]
  · rw [hcount]
    exact min_le_left _ _

/-- Witness for C6 at backoff length 1 with a token that is set from the
start. -/
theorem C6_ratelimit_increments_witness :
    ((∀ i, (fun _ : Nat => false) i = false) ∧ (fun _ : Nat => true) 0 = true ∧
      (∀ k, k < 0 → (fun _ : Nat => true) k = false)) ∧
    (ratelimit (fun _ => false) 1 = RlAct.signal ::
        (List.replicate (ratelimitRounds 1)
          [RlAct.sleep INTERVAL, RlAct.checkStopped false]).flatten ∧
      (∀ n : Nat, ratelimitRounds (n : ℚ) = 4 * n) ∧
      countSleeps (ratelimit (fun _ => true) 1) = min (0 + 1) (ratelimitRounds 1) ∧
      countSleeps (ratelimit (fun _ => true) 1) ≤ 0 + 1) :=
  ⟨⟨fun _ => rfl, rfl, fun k hk => absurd hk (Nat.not_lt_zero k)⟩,
    C6_ratelimit_increments 1 (fun _ => true) (fun _ => false) 0 (fun _ => rfl) rfl
      (fun k hk => absurd hk (Nat.not_lt_zero k))⟩

/-- C1: the helper_thread_running guard of check_circleguard_queue is not
an atomic check-and-set — the GUI thread reads it (gui.py 692) while the
spawned loop thread only writes it after its first successful dequeue
(gui.py 681).  In the interleaving semantics of the protocol, two GUI
invocations can therefore both observe the latch clear and spawn two
supervisor loops, and a state in which two different runs are
simultaneously inside run_circleguard is reachable from a clear latch and
two queued runs — contradicting the code's own guard comment ("or else
multiple runs will occur at once") and the single-flight invariant. -/
theorem C1_single_flight_race :
    ∃ s : SupConfig, SupReachable raceInit s ∧ 2 ≤ s.executing.length := by
  refine ⟨⟨true, [], [SupPC.running 0, SupPC.running 1], [1, 0]⟩, ?_, by decide⟩
  have h1 : SupStep raceInit ⟨false, [wRunMap, wRunNext], [SupPC.atDequeue], []⟩ :=
    SupStep.spawn raceInit rfl
  have h2 : SupStep ⟨false, [wRunMap, wRunNext], [SupPC.atDequeue], []⟩
      ⟨false, [wRunMap, wRunNext], [SupPC.atDequeue, SupPC.atDequeue], []⟩ :=
    SupStep.spawn _ rfl
  have h3 : SupStep ⟨false, [wRunMap, wRunNext], [SupPC.atDequeue, SupPC.atDequeue], []⟩
      ⟨true, [wRunNext], [SupPC.running 0, SupPC.atDequeue], [0]⟩ :=
    SupStep.start false wRunMap [wRunNext] [] [SupPC.atDequeue] [] rfl
  have h4 : SupStep ⟨true, [wRunNext], [SupPC.running 0, SupPC.atDequeue], [0]⟩
      ⟨true, [], [SupPC.running 0, SupPC.running 1], [1, 0]⟩ :=
    SupStep.start true wRunNext [] [SupPC.running 0] [] [0] rfl
  exact Relation.ReflTransGen.head h1 (Relation.ReflTransGen.head h2
    (Relation.ReflTransGen.head h3 (Relation.ReflTransGen.single h4)))

end Circleguard
